import Mathlib

/-!
# Register numbers and register masks of the JIT (`src/coreclr/jit/target.h`)

A shallow embedding of the register-modelling layer declared in `target.h`:
the `_regNumber_enum` sentinels, the `regMaskTP` bitset with its operators,
`PopCount`, `BitScanForward`, and the argument-register queries.

Conventions of the embedding.

* The header is specialised by the preprocessor.  The target selected with
  `TARGET_X86`, `TARGET_AMD64`, ... is an explicit argument `t : Target`, and an
  `#if` on it becomes an `if` on `t`.
* `regMaskSmall` (`unsigned` on x86, `uint64_t` elsewhere) is a `Nat` below
  `2 ^ REGMASK_BITS t`; operations that can leave that range reduce modulo the
  word size explicitly.
* `regMaskTP` has the member `high` only under `HAS_MORE_THAN_64_REGISTERS`.
  The embedding keeps one structure with both fields; on a target without the
  macro every constructor leaves `high` at `RBM_NONE` and no operation reads it.
* A call that trips an `assert`, or whose behaviour is undefined, returns `none`.
-/

namespace Target_h

/-! ## Target selection -/

/-- The six targets the header accepts (`TARGET_X86`, `TARGET_AMD64`, ...). -/
inductive Target where
  | X86
  | AMD64
  | ARM
  | ARM64
  | LOONGARCH64
  | RISCV64
  deriving DecidableEq, Repr

/-- The macro `REGMASK_BITS` (target.h lines 70-96). -/
def REGMASK_BITS : Target → Nat
  | .AMD64 => 64
  | .X86 => 32
  | .ARM => 64
  | .ARM64 => 64
  | .LOONGARCH64 => 64
  | .RISCV64 => 64

/-- The macro `HAS_MORE_THAN_64_REGISTERS` (lines 238-240): defined for ARM64 and AMD64. -/
def HAS_MORE_THAN_64_REGISTERS : Target → Bool
  | .ARM64 => true
  | .AMD64 => true
  | _ => false

/-- The macro `REG_HIGH_BASE` (line 244). -/
def REG_HIGH_BASE : Nat := 64

/-- The enumerator `RBM_NONE = 0` of `_regMask_enum`. -/
def RBM_NONE : Nat := 0

/-! ## Machine words -/

/-- The bitwise complement `~x` of a `regMaskSmall` of the target. -/
def regMaskSmall.not (t : Target) (x : Nat) : Nat :=
  2 ^ REGMASK_BITS t - 1 - x % 2 ^ REGMASK_BITS t

/-- Modelled from the spec: `BitOperations::PopCount` is declared outside
`target.h`; the spec calls it the population count of a word, which is the
number of bit positions of the (at most 64-bit) word that are set. -/
def BitOperations.PopCount (value : Nat) : Nat :=
  (List.range 64).countP (fun i => value.testBit i)

/-- Modelled from the spec: `BitOperations::BitScanForward` is declared outside
`target.h`; the spec calls it bit-scan-forward, the position of the lowest set
bit of a word, and taking it of a word with no set bit is a precondition
violation (`none`). -/
def BitOperations.BitScanForward (value : Nat) : Option Nat :=
  (List.range 64).find? (fun i => value.testBit i)

/-! ## `struct regMaskTP` -/

/-- The struct `regMaskTP` (lines 250-414): `low`, and `high` under
`HAS_MORE_THAN_64_REGISTERS`. -/
structure regMaskTP where
  low : Nat
  high : Nat
  deriving DecidableEq, Repr

namespace regMaskTP

/-- The constructor `regMaskTP(regMaskSmall lowMask, regMaskSmall highMask)`
(lines 286-292). -/
def mk2 (t : Target) (lowMask highMask : Nat) : regMaskTP :=
  if HAS_MORE_THAN_64_REGISTERS t then ⟨lowMask, highMask⟩ else ⟨lowMask, RBM_NONE⟩

/-- The converting constructor `regMaskTP(regMaskSmall regMask)` (lines 294-300). -/
def ofSmall (regMask : Nat) : regMaskTP :=
  ⟨regMask, RBM_NONE⟩

/-- The values a `regMaskTP` of target `t` can hold: each word fits
`regMaskSmall`, and there is no high word without
`HAS_MORE_THAN_64_REGISTERS`. -/
def WF (t : Target) (m : regMaskTP) : Prop :=
  m.low < 2 ^ REGMASK_BITS t ∧
    (if HAS_MORE_THAN_64_REGISTERS t then m.high < 2 ^ REGMASK_BITS t else m.high = RBM_NONE)

instance (t : Target) (m : regMaskTP) : Decidable (WF t m) := by
  unfold WF; exact inferInstance

/-- The static member `CreateFromRegNum` (lines 277-284). -/
def CreateFromRegNum (t : Target) (reg : Nat) (mask : Nat) : regMaskTP :=
  if HAS_MORE_THAN_64_REGISTERS t then
    (if reg < 64 then mk2 t mask RBM_NONE else mk2 t RBM_NONE mask)
  else
    mk2 t mask RBM_NONE

/-- The member `getLow` (lines 341-344). -/
def getLow (m : regMaskTP) : Nat := m.low

/-- The member `getHigh` (lines 347-350), present under `HAS_MORE_THAN_64_REGISTERS`. -/
def getHigh (m : regMaskTP) : Nat := m.high

/-- The conversion `explicit operator bool` (lines 306-313). -/
def toBool (t : Target) (m : regMaskTP) : Bool :=
  if HAS_MORE_THAN_64_REGISTERS t then (m.low ||| m.high) != RBM_NONE else m.low != RBM_NONE

/-- The member `IsEmpty` (lines 353-360). -/
def IsEmpty (t : Target) (m : regMaskTP) : Bool :=
  if HAS_MORE_THAN_64_REGISTERS t then (m.low ||| m.high) == RBM_NONE else m.low == RBM_NONE

/-- The member `IsNonEmpty` (lines 362-365). -/
def IsNonEmpty (t : Target) (m : regMaskTP) : Bool :=
  !IsEmpty t m

/-- The member `GetIntRegSet` (lines 367-370). -/
def GetIntRegSet (m : regMaskTP) : Nat := m.getLow

/-- The member `GetFloatRegSet` (lines 372-375). -/
def GetFloatRegSet (m : regMaskTP) : Nat := m.getLow

/-- The member `GetPredicateRegSet` (lines 377-384). -/
def GetPredicateRegSet (t : Target) (m : regMaskTP) : Nat :=
  if HAS_MORE_THAN_64_REGISTERS t then m.getHigh else m.getLow

/-- The operator `operator^` (lines 452-459). -/
def xor (t : Target) (first second : regMaskTP) : regMaskTP :=
  if HAS_MORE_THAN_64_REGISTERS t then
    mk2 t (first.getLow ^^^ second.getLow) (first.getHigh ^^^ second.getHigh)
  else ofSmall (first.getLow ^^^ second.getLow)

/-- The operator `operator&` (lines 461-468). -/
def and (t : Target) (first second : regMaskTP) : regMaskTP :=
  if HAS_MORE_THAN_64_REGISTERS t then
    mk2 t (first.getLow &&& second.getLow) (first.getHigh &&& second.getHigh)
  else ofSmall (first.getLow &&& second.getLow)

/-- The operator `operator|` (lines 470-477). -/
def or (t : Target) (first second : regMaskTP) : regMaskTP :=
  if HAS_MORE_THAN_64_REGISTERS t then
    mk2 t (first.getLow ||| second.getLow) (first.getHigh ||| second.getHigh)
  else ofSmall (first.getLow ||| second.getLow)

/-- The operator `operator==` (lines 479-486). -/
def eq (t : Target) (first second : regMaskTP) : Bool :=
  if HAS_MORE_THAN_64_REGISTERS t then
    (first.getLow == second.getLow) && (first.getHigh == second.getHigh)
  else first.getLow == second.getLow

/-- The operator `operator!=` (lines 488-491). -/
def ne (t : Target) (first second : regMaskTP) : Bool :=
  !(eq t first second)

/-- The operator `operator~` (lines 529-536). -/
def not (t : Target) (first : regMaskTP) : regMaskTP :=
  if HAS_MORE_THAN_64_REGISTERS t then
    mk2 t (regMaskSmall.not t first.getLow) (regMaskSmall.not t first.getHigh)
  else ofSmall (regMaskSmall.not t first.getLow)

/-- Membership of register `i` as the data model states it: bit `i` of the low
word for `i < 64`, bit `i - 64` of the high word for `i ≥ 64`. -/
def contains (m : regMaskTP) (i : Nat) : Bool :=
  if i < 64 then m.low.testBit i else m.high.testBit (i - REG_HIGH_BASE)

end regMaskTP

/-- The function `PopCount(const regMaskTP&)` (lines 543-550); `result` is a `uint32_t`. -/
def PopCount (t : Target) (value : regMaskTP) : Nat :=
  let result := BitOperations.PopCount value.getLow
  if HAS_MORE_THAN_64_REGISTERS t then
    (result + BitOperations.PopCount value.getHigh) % 2 ^ 32
  else result

/-- The function `BitScanForward(const regMaskTP&)` (lines 557-571); the result is a
`uint32_t`. -/
def BitScanForward (t : Target) (mask : regMaskTP) : Option Nat :=
  if HAS_MORE_THAN_64_REGISTERS t then
    if mask.getLow ≠ RBM_NONE then
      BitOperations.BitScanForward mask.getLow
    else
      (BitOperations.BitScanForward mask.getHigh).map (fun r => (64 + r) % 2 ^ 32)
  else
    BitOperations.BitScanForward mask.getLow

/-- The number of bit positions of a `regMaskTP` of the target: the word width
times the number of words. -/
def regMaskBitCount (t : Target) : Nat :=
  if HAS_MORE_THAN_64_REGISTERS t then 2 * REGMASK_BITS t else REGMASK_BITS t

/-- The `mask` argument that goes with register `r` in `CreateFromRegNum`: the
word-relative bit `1 << (r mod 64)`, as a `regMaskSmall`. -/
def regBit (t : Target) (r : Nat) : Nat :=
  (1 <<< (r % 64)) % 2 ^ REGMASK_BITS t

/-- The full valid-register set of a target with `actualRegCount` physical
registers, as the specification words it: exactly the bits of the registers
`0 .. actualRegCount - 1`, register `i < 64` in the low word and register
`i ≥ 64` at bit `i - 64` of the high word. -/
def validRegSet (actualRegCount : Nat) : regMaskTP :=
  ⟨2 ^ min actualRegCount 64 - 1, 2 ^ (actualRegCount - 64) - 1⟩

/-- The check that a single-word set has no bit outside the register range
`first .. last` (both ends included). -/
def bitsWithin (s first last : Nat) : Bool :=
  (List.range 64).all fun i => !s.testBit i || (decide (first ≤ i) && decide (i ≤ last))

/-! ## `_regNumber_enum` -/

/-- The value of an enumerator without an initialiser: one more than the
enumerator before it, and zero when it comes first. -/
def enumNext (prev : Option Nat) : Nat :=
  match prev with
  | none => 0
  | some v => v + 1

/-- The enumerator `REG_STK`. The argument `regs` is what `register.h` puts into
`_regNumber_enum` (lines 109-125, and the same for each target): the `rnum` of
every `REGDEF` row in order; the header requires `REG_STK` to be the last of
them. -/
def REG_STK (regs : List Nat) : Option Nat :=
  regs.getLast?

/-- The enumerator `REG_COUNT`, which follows the register list without an
initialiser. -/
def REG_COUNT (regs : List Nat) : Nat :=
  enumNext regs.getLast?

/-- The enumerator `REG_NA = REG_COUNT`. -/
def REG_NA (regs : List Nat) : Nat :=
  REG_COUNT regs

/-- The enumerator `ACTUAL_REG_COUNT = REG_COUNT - 1`. -/
def ACTUAL_REG_COUNT (regs : List Nat) : Nat :=
  REG_COUNT regs - 1

/-- Modelled from the spec: `register.h` is not part of this header. The data
model of the spec makes register identifiers dense and zero-based with the
stack sentinel right after them, so the list of a target with `n` physical
registers is `0, 1, ..., n - 1` followed by `REG_STK = n`. -/
def registerList (n : Nat) : List Nat :=
  List.range (n + 1)

/-! ## Calling-convention queries -/

/-- The enum class `CorInfoCallConvExtension`. It is declared in `corinfo.h`;
`target.h` itself names only the enumerator `Swift`. -/
inductive CorInfoCallConvExtension where
  | Managed
  | C
  | Stdcall
  | Thiscall
  | Fastcall
  | CMemberFunction
  | StdcallMemberFunction
  | FastcallMemberFunction
  | Swift
  deriving DecidableEq, Repr

/-- What `target.h` uses and the headers around it define: the build switch
`SWIFT_SUPPORT`, `TargetOS::IsWindows`, `callConvIsInstanceMethodCallConv`, the
register list of `register.h`, the table `regMasks[REG_COUNT]`, and the
`RBM_` masks of the `target<arch>.h` headers. -/
structure TargetTables where
  SWIFT_SUPPORT : Bool
  IsWindows : Bool
  callConvIsInstanceMethodCallConv : CorInfoCallConvExtension → Bool
  regs : List Nat
  regMasks : Nat → Nat
  RBM_ARG_REGS : regMaskTP
  RBM_ARG_RET_BUFF : regMaskTP
  RBM_SWIFT_ARG_RET_BUFF : regMaskTP
  RBM_SWIFT_SELF : regMaskTP
  RBM_SWIFT_ERROR : regMaskTP

/-- The member `operator|=` (lines 391-397). -/
def regMaskTP.orAssign (t : Target) (self second : regMaskTP) : regMaskTP :=
  if HAS_MORE_THAN_64_REGISTERS t then
    ⟨self.low ||| second.getLow, self.high ||| second.getHigh⟩
  else ⟨self.low ||| second.getLow, self.high⟩

/-- The function `hasFixedRetBuffReg` (lines 756-766). -/
def hasFixedRetBuffReg (t : Target) (e : TargetTables)
    (callConv : CorInfoCallConvExtension) : Bool :=
  match t with
  | .ARM64 => !e.IsWindows || !e.callConvIsInstanceMethodCallConv callConv
  | .AMD64 =>
    if e.SWIFT_SUPPORT then callConv == CorInfoCallConvExtension.Swift else false
  | _ => false

/-- The function `theFixedRetBuffMask` (lines 789-800); `none` when one of its
assertions fails. -/
def theFixedRetBuffMask (t : Target) (e : TargetTables)
    (callConv : CorInfoCallConvExtension) : Option regMaskTP :=
  if hasFixedRetBuffReg t e callConv then
    match t with
    | .ARM64 => some e.RBM_ARG_RET_BUFF
    | .AMD64 =>
      if e.SWIFT_SUPPORT then
        (if callConv = CorInfoCallConvExtension.Swift then some e.RBM_SWIFT_ARG_RET_BUFF
          else none)
      else some (regMaskTP.ofSmall 0)
    | _ => some (regMaskTP.ofSmall 0)
  else none

/-- The function `fullIntArgRegMask` (lines 824-846). -/
def fullIntArgRegMask (t : Target) (e : TargetTables)
    (callConv : CorInfoCallConvExtension) : Option regMaskTP := do
  let result := e.RBM_ARG_REGS
  let result ←
    if hasFixedRetBuffReg t e callConv then
      (theFixedRetBuffMask t e callConv).map (regMaskTP.orAssign t result)
    else some result
  if e.SWIFT_SUPPORT then
    if callConv = CorInfoCallConvExtension.Swift then
      let result := regMaskTP.orAssign t result e.RBM_SWIFT_SELF
      some (regMaskTP.orAssign t result e.RBM_SWIFT_ERROR)
    else some result
  else some result

/-- The function `genSingleTypeRegMask(regNumber)` (lines 954-968). `ArrLen(regMasks)`
is `REG_COUNT`. On AMD64 the result is `1ULL << reg`, which has no defined value
for `reg ≥ 64`, and is then checked against the table. -/
def genSingleTypeRegMask (t : Target) (e : TargetTables) (reg : Nat) : Option Nat :=
  if reg < REG_COUNT e.regs then
    match t with
    | .AMD64 =>
      if reg < 64 then
        let result := (1 <<< reg) % 2 ^ 64
        if result = e.regMasks reg then some result else none
      else none
    | _ => some (e.regMasks reg)
  else none

/-- The function `isValidIntArgReg` (lines 853-856). The single-word mask and the
literal `0` reach `operator&` and `operator!=` through the converting
constructor `regMaskTP(regMaskSmall)`. -/
def isValidIntArgReg (t : Target) (e : TargetTables) (reg : Nat)
    (callConv : CorInfoCallConvExtension) : Option Bool := do
  let single ← genSingleTypeRegMask t e reg
  let full ← fullIntArgRegMask t e callConv
  some (regMaskTP.ne t (regMaskTP.and t (regMaskTP.ofSmall single) full) (regMaskTP.ofSmall 0))

/-- An instance of the tables shaped like ARM64: 82 registers before `REG_STK`,
`regMasks[r]` the word-relative bit `1 << (r mod 64)` that `CreateFromRegNum`
expects (zero for `REG_STK`), the argument registers 0..7 and the
return-buffer register 8. -/
def arm64Tables : TargetTables where
  SWIFT_SUPPORT := false
  IsWindows := false
  callConvIsInstanceMethodCallConv := fun _ => false
  regs := registerList 82
  regMasks := fun r => if r < 82 then regBit Target.ARM64 r else 0
  RBM_ARG_REGS := regMaskTP.ofSmall 0xFF
  RBM_ARG_RET_BUFF := regMaskTP.CreateFromRegNum Target.ARM64 8 (regBit Target.ARM64 8)
  RBM_SWIFT_ARG_RET_BUFF := regMaskTP.ofSmall 0
  RBM_SWIFT_SELF := regMaskTP.ofSmall 0
  RBM_SWIFT_ERROR := regMaskTP.ofSmall 0

/-! ## Register classification -/

/-- The cast `(unsigned)x` of an integer to the 32-bit `unsigned`: a negative
value wraps around. -/
def castUnsigned (x : Int) : Nat :=
  (x % 2 ^ 32).toNat

/-- The difference `a - b` of two `unsigned` values. -/
def subUnsigned (a b : Nat) : Nat :=
  (a % 2 ^ 32 + 2 ^ 32 - b % 2 ^ 32) % 2 ^ 32

/-- The function `genIsValidReg` (lines 696-700); `reg` is whatever integer the
caller passes for the register number. -/
def genIsValidReg (regs : List Nat) (reg : Int) : Bool :=
  decide (castUnsigned reg < castUnsigned (REG_COUNT regs))

/-- The conversion `explicit operator regMaskSmall` (lines 315-321); `none` when
the assertion `high == RBM_NONE` fails. -/
def regMaskTP.toSmall (t : Target) (m : regMaskTP) : Option Nat :=
  if HAS_MORE_THAN_64_REGISTERS t then
    (if m.high = RBM_NONE then some m.low else none)
  else some m.low

/-- The register-number constants that `target.h` takes from the
`target<arch>.h` headers. -/
structure RegConsts where
  REG_INT_FIRST : Nat
  REG_INT_LAST : Nat
  REG_FP_FIRST : Nat
  REG_FP_LAST : Nat
  REG_MASK_FIRST : Nat
  REG_MASK_LAST : Nat
  REG_F0 : Nat
  FIRST_FP_ARGREG : Nat
  LAST_FP_ARGREG : Nat
  REG_ARG_RET_BUFF : Nat
  REG_SWIFT_ARG_RET_BUFF : Nat
  RET_BUFF_ARGNUM : Nat
  SWIFT_RET_BUFF_ARGNUM : Nat
  BAD_VAR_NUM : Nat

/-- The enum `var_types`. It is declared outside `target.h`, which names the
enumerators `TYP_FLOAT`, `TYP_DOUBLE` and `TYP_STRUCT`; `other n` stands for
every other enumerator. -/
inductive var_types where
  | TYP_FLOAT
  | TYP_DOUBLE
  | TYP_STRUCT
  | other (n : Nat)
  deriving DecidableEq, Repr

/-- The predicates `varTypeUsesIntReg`, `varTypeUsesFloatReg` and
`varTypeUsesMaskReg`, which `target.h` calls and does not define. -/
structure VarTypeKinds where
  varTypeUsesIntReg : var_types → Bool
  varTypeUsesFloatReg : var_types → Bool
  varTypeUsesMaskReg : var_types → Bool

/-- The macro `TARGET_XARCH`, set for the x86 and AMD64 targets. -/
def TARGET_XARCH : Target → Bool
  | .X86 => true
  | .AMD64 => true
  | _ => false

/-- Modelled from the spec: the macro `REG_NEXT` comes from the `target<arch>.h`
headers; the spec uses it to step to the next register of a kind, the register
number plus one. -/
def REG_NEXT (reg : Nat) : Nat :=
  (reg + 1) % 2 ^ 32

/-- Modelled from the spec: the macro `REG_PREV` comes from the `target<arch>.h`
headers; it is the neighbour below, the register number minus one. -/
def REG_PREV (reg : Nat) : Nat :=
  subUnsigned reg 1

/-- The function `genIsValidIntReg` (lines 705-708). -/
def genIsValidIntReg (c : RegConsts) (reg : Nat) : Bool :=
  decide (reg ≥ c.REG_INT_FIRST) && decide (reg ≤ c.REG_INT_LAST)

/-- The function `genIsValidFloatReg` (lines 725-728). -/
def genIsValidFloatReg (c : RegConsts) (reg : Nat) : Bool :=
  decide (reg ≥ c.REG_FP_FIRST) && decide (reg ≤ c.REG_FP_LAST)

/-- The function `genIsValidMaskReg` (lines 734-737). -/
def genIsValidMaskReg (c : RegConsts) (reg : Nat) : Bool :=
  decide (reg ≥ c.REG_MASK_FIRST) && decide (reg ≤ c.REG_MASK_LAST)

/-- The function `genIsValidDoubleReg` (lines 745-748), defined for ARM. -/
def genIsValidDoubleReg (c : RegConsts) (reg : Nat) : Bool :=
  genIsValidFloatReg c reg && ((subUnsigned reg c.REG_FP_FIRST &&& 0x1) == 0)

/-- The function `theFixedRetBuffReg` (lines 772-783); `none` when one of its
assertions fails. -/
def theFixedRetBuffReg (t : Target) (e : TargetTables) (c : RegConsts)
    (callConv : CorInfoCallConvExtension) : Option Nat :=
  if hasFixedRetBuffReg t e callConv then
    match t with
    | .ARM64 => some c.REG_ARG_RET_BUFF
    | .AMD64 =>
      if e.SWIFT_SUPPORT then
        (if callConv = CorInfoCallConvExtension.Swift then some c.REG_SWIFT_ARG_RET_BUFF
          else none)
      else some (REG_NA e.regs)
    | _ => some (REG_NA e.regs)
  else none

/-- The function `theFixedRetBuffArgNum` (lines 806-817); `none` when one of its
assertions fails. -/
def theFixedRetBuffArgNum (t : Target) (e : TargetTables) (c : RegConsts)
    (callConv : CorInfoCallConvExtension) : Option Nat :=
  if hasFixedRetBuffReg t e callConv then
    match t with
    | .ARM64 => some c.RET_BUFF_ARGNUM
    | .AMD64 =>
      if e.SWIFT_SUPPORT then
        (if callConv = CorInfoCallConvExtension.Swift then some c.SWIFT_RET_BUFF_ARGNUM
          else none)
      else some c.BAD_VAR_NUM
    | _ => some c.BAD_VAR_NUM
  else none

/-- The function `isValidFloatArgReg` (lines 869-879). -/
def isValidFloatArgReg (c : RegConsts) (regs : List Nat) (reg : Nat) : Bool :=
  if reg = REG_NA regs then false
  else decide (reg ≥ c.FIRST_FP_ARGREG) && decide (reg ≤ c.LAST_FP_ARGREG)

/-- The function `floatRegCanHoldType` (lines 887-912); `none` when one of the
assertions of the ARM version fails. -/
def floatRegCanHoldType (t : Target) (c : RegConsts) (reg : Nat) (type : var_types) :
    Option Bool :=
  match t with
  | .ARM =>
    if genIsValidFloatReg c reg then
      if type = var_types.TYP_DOUBLE then
        some (subUnsigned reg c.REG_F0 % 2 == 0)
      else if type = var_types.TYP_FLOAT ∨ type = var_types.TYP_STRUCT then some true
      else none
    else none
  | _ => some true

/-- The function `getRegForType` (lines 1053-1062). -/
def getRegForType (t : Target) (c : RegConsts) (reg : Nat) (regType : var_types) : Nat :=
  match t with
  | .ARM =>
    if regType = var_types.TYP_DOUBLE ∧ genIsValidDoubleReg c reg = false then REG_PREV reg
    else reg
  | _ => reg

/-- The function `regNextOfType` (lines 1084-1130); `none` when an assertion
fails. -/
def regNextOfType (t : Target) (c : RegConsts) (k : VarTypeKinds) (regs : List Nat)
    (reg : Nat) (type : var_types) : Option Nat :=
  let first : Option Nat :=
    match t with
    | .ARM =>
      if type = var_types.TYP_DOUBLE then
        (if floatRegCanHoldType Target.ARM c reg type = some true then
          some ((reg + 2) % 2 ^ 32)
        else none)
      else some (REG_NEXT reg)
    | _ => some (REG_NEXT reg)
  first.bind fun regReturn =>
    if k.varTypeUsesIntReg type then
      some (if regReturn > c.REG_INT_LAST then REG_NA regs else regReturn)
    else if TARGET_XARCH t && k.varTypeUsesMaskReg type then
      some (if regReturn > c.REG_MASK_LAST then REG_NA regs else regReturn)
    else if k.varTypeUsesFloatReg type then
      some (if regReturn > c.REG_FP_LAST then REG_NA regs else regReturn)
    else none

/-- An instance of the register constants shaped like ARM: integer registers
0..15, float registers `REG_F0 = 16` .. 47, no mask registers. -/
def armConsts : RegConsts where
  REG_INT_FIRST := 0
  REG_INT_LAST := 15
  REG_FP_FIRST := 16
  REG_FP_LAST := 47
  REG_MASK_FIRST := 0
  REG_MASK_LAST := 0
  REG_F0 := 16
  FIRST_FP_ARGREG := 16
  LAST_FP_ARGREG := 31
  REG_ARG_RET_BUFF := 0
  REG_SWIFT_ARG_RET_BUFF := 0
  RET_BUFF_ARGNUM := 0
  SWIFT_RET_BUFF_ARGNUM := 0
  BAD_VAR_NUM := 0

/-- An instance of the type predicates: `TYP_FLOAT` and `TYP_DOUBLE` use float
registers, `other 0` a mask register, every other type an integer register. -/
def sampleKinds : VarTypeKinds where
  varTypeUsesIntReg := fun ty =>
    ty ≠ var_types.TYP_FLOAT && ty ≠ var_types.TYP_DOUBLE && ty ≠ var_types.other 0
  varTypeUsesFloatReg := fun ty => ty = var_types.TYP_FLOAT || ty = var_types.TYP_DOUBLE
  varTypeUsesMaskReg := fun ty => ty = var_types.other 0

/-- The five `RBM_` masks of the tables are values a `regMaskTP` of the target
can hold. -/
def TargetTables.WF (t : Target) (e : TargetTables) : Prop :=
  regMaskTP.WF t e.RBM_ARG_REGS ∧ regMaskTP.WF t e.RBM_ARG_RET_BUFF ∧
    regMaskTP.WF t e.RBM_SWIFT_ARG_RET_BUFF ∧ regMaskTP.WF t e.RBM_SWIFT_SELF ∧
    regMaskTP.WF t e.RBM_SWIFT_ERROR

instance (t : Target) (e : TargetTables) : Decidable (TargetTables.WF t e) := by
  unfold TargetTables.WF; exact inferInstance

/-- The set that the description of `fullIntArgRegMask` spells out: `RBM_ARG_REGS`,
united with `theFixedRetBuffMask` when `hasFixedRetBuffReg` holds, united with
`RBM_SWIFT_SELF` and `RBM_SWIFT_ERROR` under `SWIFT_SUPPORT` for the Swift
convention. -/
def fullIntArgRegMask_spec (t : Target) (e : TargetTables)
    (callConv : CorInfoCallConvExtension) : regMaskTP :=
  let base :=
    if hasFixedRetBuffReg t e callConv then
      regMaskTP.or t e.RBM_ARG_REGS
        ((theFixedRetBuffMask t e callConv).getD (regMaskTP.ofSmall RBM_NONE))
    else e.RBM_ARG_REGS
  if e.SWIFT_SUPPORT = true ∧ callConv = CorInfoCallConvExtension.Swift then
    regMaskTP.or t (regMaskTP.or t base e.RBM_SWIFT_SELF) e.RBM_SWIFT_ERROR
  else base

/-- The ARM64-shaped tables on Windows, where the instance-method conventions
have no fixed return-buffer register. -/
def arm64WindowsTables : TargetTables where
  SWIFT_SUPPORT := false
  IsWindows := true
  callConvIsInstanceMethodCallConv := fun cc =>
    cc = CorInfoCallConvExtension.Thiscall || cc = CorInfoCallConvExtension.CMemberFunction ||
      cc = CorInfoCallConvExtension.StdcallMemberFunction ||
      cc = CorInfoCallConvExtension.FastcallMemberFunction
  regs := registerList 82
  regMasks := fun r => if r < 82 then regBit Target.ARM64 r else 0
  RBM_ARG_REGS := regMaskTP.ofSmall 0xFF
  RBM_ARG_RET_BUFF := regMaskTP.CreateFromRegNum Target.ARM64 8 (regBit Target.ARM64 8)
  RBM_SWIFT_ARG_RET_BUFF := regMaskTP.ofSmall 0
  RBM_SWIFT_SELF := regMaskTP.ofSmall 0
  RBM_SWIFT_ERROR := regMaskTP.ofSmall 0

/-! ## Shifts, subtraction and the ARM double masks -/

/-- The operator `operator>>` (lines 518-521). The shift amount is an `int`; a
shift by a negative amount or by the width of the word or more has no defined
value. -/
def regMaskTP.shiftRight (t : Target) (first : regMaskTP) (b : Int) : Option regMaskTP :=
  if 0 ≤ b ∧ b < REGMASK_BITS t then some (regMaskTP.ofSmall (first.getLow >>> b.toNat))
  else none

/-- The operator `operator-` (lines 494-498), defined for ARM: the difference of
the 64-bit low words. -/
def regMaskTP.sub (first second : regMaskTP) : regMaskTP :=
  regMaskTP.ofSmall ((first.getLow % 2 ^ 64 + 2 ^ 64 - second.getLow % 2 ^ 64) % 2 ^ 64)

/-- A read `regMasks[i]` of the array `regMasks[REG_COUNT]` (line 914); a read
past the end has no defined value. -/
def regMasksAt (e : TargetTables) (i : Nat) : Option Nat :=
  if i < REG_COUNT e.regs then some (e.regMasks i) else none

/-- The function `genSingleTypeFloatMask` (lines 920-942); `REG_F31` is the
constant of that name in `targetarm.h`. -/
def genSingleTypeFloatMask (t : Target) (e : TargetTables) (c : RegConsts) (REG_F31 : Nat)
    (reg : Nat) (type : var_types) : Option Nat :=
  match t with
  | .ARM =>
    if floatRegCanHoldType Target.ARM c reg type = some true then
      if reg ≥ c.REG_F0 ∧ reg ≤ REG_F31 then
        if type = var_types.TYP_DOUBLE then
          (regMasksAt e reg).bind fun lo =>
            (regMasksAt e ((reg + 1) % 2 ^ 32)).map fun hi => lo ||| hi
        else regMasksAt e reg
      else none
    else none
  | _ =>
    if genIsValidFloatReg c reg then
      (if reg < REG_COUNT e.regs then regMasksAt e reg else none)
    else none

/-- The function `getSingleTypeRegMask` (lines 1064-1076). -/
def getSingleTypeRegMask (t : Target) (e : TargetTables) (c : RegConsts) (reg : Nat)
    (regType : var_types) : Option Nat :=
  let reg := getRegForType t c reg regType
  (genSingleTypeRegMask t e reg).bind fun regMask =>
    match t with
    | .ARM =>
      if regType = var_types.TYP_DOUBLE then
        (if genIsValidDoubleReg c reg then some (regMask ||| (regMask <<< 1) % 2 ^ 64)
          else none)
      else some regMask
    | _ => some regMask

/-- The last register of the kind that `regNextOfType` checks a type against:
`REG_INT_LAST` for a type that uses integer registers, `REG_MASK_LAST` for one
that uses mask registers on xarch, `REG_FP_LAST` otherwise. -/
def lastRegOfType (t : Target) (c : RegConsts) (k : VarTypeKinds) (type : var_types) : Nat :=
  if k.varTypeUsesIntReg type = true then c.REG_INT_LAST
  else if TARGET_XARCH t = true ∧ k.varTypeUsesMaskReg type = true then c.REG_MASK_LAST
  else c.REG_FP_LAST

/-- The distance `regNextOfType` advances by: two for `TYP_DOUBLE` on ARM, one
otherwise. -/
def regStepOfType (t : Target) (type : var_types) : Nat :=
  if t = Target.ARM ∧ type = var_types.TYP_DOUBLE then 2 else 1

/-- The enumeration of the registers of a kind: `regNextOfType` is applied again
and again, starting at `reg`, until it returns `REG_NA`; the result is the list
of the registers visited. The first argument bounds the number of calls, and
`none` means that a call failed or that the bound was reached. -/
def enumerateRegs (t : Target) (c : RegConsts) (k : VarTypeKinds) (regs : List Nat)
    (type : var_types) : Nat → Nat → Option (List Nat)
  | 0, _ => none
  | fuel + 1, reg =>
    (regNextOfType t c k regs reg type).bind fun next =>
      if next = REG_NA regs then some [reg]
      else (enumerateRegs t c k regs type fuel next).map (List.cons reg)

/-- An instance of the tables shaped like AMD64: 72 registers before `REG_STK`,
eight of them in the high word, and `regMasks[r]` the word-relative bit. -/
def amd64Tables : TargetTables where
  SWIFT_SUPPORT := true
  IsWindows := false
  callConvIsInstanceMethodCallConv := fun _ => false
  regs := registerList 72
  regMasks := fun r => if r < 72 then regBit Target.AMD64 r else 0
  RBM_ARG_REGS := regMaskTP.ofSmall 0x3C6
  RBM_ARG_RET_BUFF := regMaskTP.ofSmall 0
  RBM_SWIFT_ARG_RET_BUFF := regMaskTP.ofSmall 0x1
  RBM_SWIFT_SELF := regMaskTP.ofSmall 0x2000
  RBM_SWIFT_ERROR := regMaskTP.ofSmall 0x1000

/-- An instance of the tables shaped like ARM: 48 registers before `REG_STK`
and `regMasks[r] == 1 << r` for each of them. -/
def armTables : TargetTables where
  SWIFT_SUPPORT := false
  IsWindows := false
  callConvIsInstanceMethodCallConv := fun _ => false
  regs := registerList 48
  regMasks := fun r => if r < 48 then 1 <<< r else 0
  RBM_ARG_REGS := regMaskTP.ofSmall 0xF
  RBM_ARG_RET_BUFF := regMaskTP.ofSmall 0
  RBM_SWIFT_ARG_RET_BUFF := regMaskTP.ofSmall 0
  RBM_SWIFT_SELF := regMaskTP.ofSmall 0
  RBM_SWIFT_ERROR := regMaskTP.ofSmall 0

/-! ## Facts about the word-level bit operations -/

theorem countP_or_add_countP_and (p q : Nat → Bool) (l : List Nat) :
    l.countP (fun i => p i || q i) + l.countP (fun i => p i && q i) =
      l.countP p + l.countP q := by
  induction l with
  | nil => simp
  | cons x xs ih =>
    simp only [List.countP_cons]
    cases hp : p x <;> cases hq : q x <;> simp <;> omega

theorem BitOperations.PopCount_le (value : Nat) : BitOperations.PopCount value ≤ 64 := by
  unfold BitOperations.PopCount
  exact (List.countP_le_length _).trans (by simp)

theorem BitOperations.PopCount_or_add_and (a b : Nat) :
    BitOperations.PopCount (a ||| b) + BitOperations.PopCount (a &&& b) =
      BitOperations.PopCount a + BitOperations.PopCount b := by
  unfold BitOperations.PopCount
  simp only [Nat.testBit_or, Nat.testBit_and]
  exact countP_or_add_countP_and _ _ _

theorem find_range_none (p : Nat → Bool) (n : Nat) :
    (List.range n).find? p = none ↔ ∀ j, j < n → p j = false := by
  simp [List.find?_eq_none]

theorem find_range_some (p : Nat → Bool) (n r : Nat) :
    (List.range n).find? p = some r ↔ r < n ∧ p r = true ∧ ∀ j, j < r → p j = false := by
  induction n generalizing r with
  | zero => simp
  | succ n ih =>
    rw [List.range_succ, List.find?_append]
    cases h : (List.range n).find? p with
    | some x =>
      obtain ⟨hx1, hx2, hx3⟩ := (ih x).1 h
      simp only [Option.or_some, Option.some.injEq]
      constructor
      · rintro rfl
        exact ⟨by omega, hx2, hx3⟩
      · rintro ⟨_, hr2, hr3⟩
        rcases Nat.lt_trichotomy x r with hlt | heq | hgt
        · rw [hr3 x hlt] at hx2; cases hx2
        · exact heq
        · rw [hx3 r hgt] at hr2; cases hr2
    | none =>
      have hn := (find_range_none p n).1 h
      simp only [Option.none_or, List.find?_cons, List.find?_nil]
      cases hp : p n with
      | true =>
        simp only [Option.some.injEq]
        constructor
        · rintro rfl
          exact ⟨by omega, hp, hn⟩
        · rintro ⟨hr1, hr2, _⟩
          rcases Nat.lt_or_ge r n with hlt | hge
          · rw [hn r hlt] at hr2; cases hr2
          · omega
      | false =>
        constructor
        · intro hc; cases hc
        rintro ⟨hr1, hr2, _⟩
        exfalso
        rcases Nat.lt_or_ge r n with hlt | hge
        · rw [hn r hlt] at hr2; cases hr2
        · have : r = n := by omega
          subst this; rw [hp] at hr2; cases hr2

theorem lor_eq_zero {a b : Nat} (h : a ||| b = 0) : a = 0 ∧ b = 0 := by
  have hb : ∀ i, (a ||| b).testBit i = false := by intro i; rw [h]; exact Nat.zero_testBit i
  simp only [Nat.testBit_or, Bool.or_eq_false_iff] at hb
  exact ⟨Nat.zero_of_testBit_eq_false fun i => (hb i).1,
    Nat.zero_of_testBit_eq_false fun i => (hb i).2⟩

theorem BitOperations.BitScanForward_eq_some (value r : Nat) :
    BitOperations.BitScanForward value = some r ↔
      r < 64 ∧ value.testBit r = true ∧ ∀ j, j < r → value.testBit j = false :=
  find_range_some _ 64 r

theorem BitOperations.BitScanForward_zero : BitOperations.BitScanForward 0 = none := by
  unfold BitOperations.BitScanForward
  rw [find_range_none]
  intro j _
  exact Nat.zero_testBit j

theorem BitOperations.BitScanForward_two_pow (k : Nat) (hk : k < 64) :
    BitOperations.BitScanForward (2 ^ k) = some k := by
  rw [BitOperations.BitScanForward_eq_some]
  refine ⟨hk, Nat.testBit_two_pow_self, fun j hj => ?_⟩
  exact Nat.testBit_two_pow_of_ne (by omega)

theorem BitOperations.BitScanForward_isSome (value : Nat) (h0 : value ≠ 0)
    (hlt : value < 2 ^ 64) : ∃ r, BitOperations.BitScanForward value = some r := by
  cases h : BitOperations.BitScanForward value with
  | some r => exact ⟨r, rfl⟩
  | none =>
    exfalso
    have hn := (find_range_none _ 64).1 h
    obtain ⟨i, hi⟩ := Nat.ne_zero_implies_bit_true h0
    rcases Nat.lt_or_ge i 64 with hlt64 | hge
    · rw [hn i hlt64] at hi; cases hi
    · have : value < 2 ^ i := lt_of_lt_of_le hlt (Nat.pow_le_pow_right (by decide) hge)
      rw [Nat.testBit_lt_two_pow this] at hi; cases hi

theorem REGMASK_BITS_le (t : Target) : REGMASK_BITS t ≤ 64 := by
  cases t <;> decide

theorem two_pow_REGMASK_BITS_le (t : Target) : 2 ^ REGMASK_BITS t ≤ 2 ^ 64 :=
  Nat.pow_le_pow_right (by decide) (REGMASK_BITS_le t)

theorem BitOperations.PopCount_zero : BitOperations.PopCount 0 = 0 := by decide

theorem BitOperations.PopCount_two_pow :
    ∀ k, k < 64 → BitOperations.PopCount (2 ^ k) = 1 := by decide

theorem two_pow_and_two_pow {a b : Nat} (h : a ≠ b) : 2 ^ a &&& 2 ^ b = 0 := by
  apply Nat.eq_of_testBit_eq
  intro i
  simp only [Nat.testBit_and, Nat.testBit_two_pow, Nat.zero_testBit]
  by_cases h1 : a = i <;> by_cases h2 : b = i <;> simp [h1, h2]
  omega

theorem BitOperations.BitScanForward_two_pow_or (a b : Nat) (ha : a < 64) (hb : b < 64) :
    BitOperations.BitScanForward (2 ^ a ||| 2 ^ b) = some (min a b) := by
  rw [BitOperations.BitScanForward_eq_some]
  refine ⟨by omega, ?_, fun j hj => ?_⟩
  · simp only [Nat.testBit_or, Nat.testBit_two_pow, Bool.or_eq_true, decide_eq_true_eq]
    omega
  · simp only [Nat.testBit_or, Nat.testBit_two_pow, Bool.or_eq_false_iff, decide_eq_false_iff_not]
    omega

theorem regBit_eq (t : Target) (r : Nat) (hr : r < regMaskBitCount t) :
    regBit t r = 2 ^ (r % 64) ∧ r % 64 < REGMASK_BITS t ∧
      (r < 64 ∨ (HAS_MORE_THAN_64_REGISTERS t = true ∧ 64 ≤ r ∧ r < 128)) := by
  have key : r % 64 < REGMASK_BITS t ∧
      (r < 64 ∨ (HAS_MORE_THAN_64_REGISTERS t = true ∧ 64 ≤ r ∧ r < 128)) := by
    cases t <;> simp [regMaskBitCount, HAS_MORE_THAN_64_REGISTERS, REGMASK_BITS] at hr ⊢ <;> omega
  refine ⟨?_, key⟩
  unfold regBit
  rw [Nat.one_shiftLeft]
  exact Nat.mod_eq_of_lt (Nat.pow_lt_pow_right (by decide) key.1)

theorem CreateFromRegNum_regBit (t : Target) (r : Nat) (hr : r < regMaskBitCount t) :
    regMaskTP.CreateFromRegNum t r (regBit t r) =
        (if r < 64 then regMaskTP.mk (2 ^ r) 0 else regMaskTP.mk 0 (2 ^ (r - 64))) ∧
      (64 ≤ r → HAS_MORE_THAN_64_REGISTERS t = true ∧ r < 128) := by
  obtain ⟨hbit, _, hcase⟩ := regBit_eq t r hr
  rw [hbit]
  by_cases hr64 : r < 64
  · refine ⟨?_, fun h => absurd hr64 (by omega)⟩
    rw [Nat.mod_eq_of_lt hr64]
    cases h : HAS_MORE_THAN_64_REGISTERS t <;>
      simp [regMaskTP.CreateFromRegNum, regMaskTP.mk2, h, hr64, RBM_NONE]
  · obtain ⟨h, h64, h128⟩ : HAS_MORE_THAN_64_REGISTERS t = true ∧ 64 ≤ r ∧ r < 128 := by
      rcases hcase with h1 | h2
      · exact absurd h1 hr64
      · exact h2
    refine ⟨?_, fun _ => ⟨h, h128⟩⟩
    have hmod : r % 64 = r - 64 := by omega
    simp [regMaskTP.CreateFromRegNum, regMaskTP.mk2, h, hr64, RBM_NONE, hmod]

theorem regMaskSmall.or_not (t : Target) (x : Nat) (hx : x < 2 ^ REGMASK_BITS t) :
    x ||| regMaskSmall.not t x = 2 ^ REGMASK_BITS t - 1 := by
  unfold regMaskSmall.not
  rw [Nat.mod_eq_of_lt hx]
  have e : 2 ^ REGMASK_BITS t - 1 - x = 2 ^ REGMASK_BITS t - (x + 1) := by omega
  rw [e]
  apply Nat.eq_of_testBit_eq
  intro i
  rw [Nat.testBit_or, Nat.testBit_two_pow_sub_succ hx, Nat.testBit_two_pow_sub_one]
  by_cases hi : i < REGMASK_BITS t
  · cases hb : x.testBit i <;> simp [hi]
  · have hlt : x < 2 ^ i := lt_of_lt_of_le hx (Nat.pow_le_pow_right (by decide) (by omega))
    simp [hi, Nat.testBit_lt_two_pow hlt]

theorem two_pow_sub_one_inj (a b : Nat) : 2 ^ a - 1 = 2 ^ b - 1 ↔ a = b := by
  have ha : 0 < 2 ^ a := by positivity
  have hb : 0 < 2 ^ b := by positivity
  constructor
  · intro h
    have h2 : 2 ^ a = 2 ^ b := by omega
    exact Nat.pow_right_injective (le_refl 2) h2
  · rintro rfl; rfl

theorem zero_eq_two_pow_sub_one (k : Nat) : 0 = 2 ^ k - 1 ↔ k = 0 := by
  have h := two_pow_sub_one_inj 0 k
  simp only [pow_zero, Nat.sub_self] at h
  rw [h]; omega

theorem allBits_contains (t : Target) (i : Nat) (hi : i < regMaskBitCount t) :
    (regMaskTP.mk2 t (2 ^ REGMASK_BITS t - 1) (2 ^ REGMASK_BITS t - 1)).contains i = true := by
  cases t <;>
    simp [regMaskBitCount, HAS_MORE_THAN_64_REGISTERS, REGMASK_BITS] at hi <;>
    simp only [regMaskTP.contains, regMaskTP.mk2, HAS_MORE_THAN_64_REGISTERS, REGMASK_BITS,
      REG_HIGH_BASE, Nat.testBit_two_pow_sub_one, if_true, if_false, Bool.false_eq_true,
      RBM_NONE] <;>
    split <;> simp <;> omega

theorem allBits_eq_validRegSet (t : Target) (n : Nat) (hn : n ≤ regMaskBitCount t) :
    regMaskTP.mk2 t (2 ^ REGMASK_BITS t - 1) (2 ^ REGMASK_BITS t - 1) = validRegSet n ↔
      n = regMaskBitCount t := by
  cases t <;>
    simp [regMaskBitCount, HAS_MORE_THAN_64_REGISTERS, REGMASK_BITS] at hn <;>
    simp only [regMaskTP.mk2, validRegSet, HAS_MORE_THAN_64_REGISTERS, REGMASK_BITS,
      regMaskBitCount, regMaskTP.mk.injEq, RBM_NONE, if_true, if_false, Bool.false_eq_true,
      two_pow_sub_one_inj, zero_eq_two_pow_sub_one] <;>
    omega

theorem two_pow_and_ne_zero (r x : Nat) : ((2 ^ r &&& x) != 0) = x.testBit r := by
  cases hb : x.testBit r with
  | true =>
    have : (2 ^ r &&& x).testBit r = true := by simp [Nat.testBit_and, hb]
    have hne : 2 ^ r &&& x ≠ 0 := by
      intro hz; rw [hz, Nat.zero_testBit] at this; cases this
    simpa using hne
  | false =>
    have : 2 ^ r &&& x = 0 := by
      apply Nat.eq_of_testBit_eq
      intro i
      simp only [Nat.testBit_and, Nat.testBit_two_pow, Nat.zero_testBit]
      by_cases hi : r = i
      · subst hi; simp [hb]
      · simp [hi]
    simp [this]

/-- Whatever the register, `isValidIntArgReg` tests the single-word mask of the
register against the low word of `fullIntArgRegMask`. -/
theorem isValidIntArgReg_tests_low_word (t : Target) (e : TargetTables) (reg k : Nat)
    (callConv : CorInfoCallConvExtension) (full : regMaskTP)
    (hsingle : genSingleTypeRegMask t e reg = some (2 ^ k))
    (hfull : fullIntArgRegMask t e callConv = some full) :
    isValidIntArgReg t e reg callConv = some (full.low.testBit k) := by
  have hbit := two_pow_and_ne_zero k full.low
  simp only [bne, Bool.not_eq_eq_eq_not] at hbit
  cases h : HAS_MORE_THAN_64_REGISTERS t <;>
    simp [isValidIntArgReg, hsingle, hfull, regMaskTP.ne, regMaskTP.eq, regMaskTP.and,
      regMaskTP.mk2, regMaskTP.ofSmall, regMaskTP.getLow, regMaskTP.getHigh, h, RBM_NONE]
  all_goals exact hbit

/-- For a register of the low word whose table entry is its own bit,
`isValidIntArgReg` is membership in `fullIntArgRegMask`. -/
theorem isValidIntArgReg_low_register (t : Target) (e : TargetTables) (reg : Nat)
    (callConv : CorInfoCallConvExtension) (full : regMaskTP)
    (hreg : reg < REG_COUNT e.regs) (h64 : reg < 64) (hmask : e.regMasks reg = 2 ^ reg)
    (hfull : fullIntArgRegMask t e callConv = some full) :
    isValidIntArgReg t e reg callConv = some (full.contains reg) := by
  have hsingle : genSingleTypeRegMask t e reg = some (2 ^ reg) := by
    have hlt : 2 ^ reg < 2 ^ 64 := Nat.pow_lt_pow_right (by decide) h64
    have hmod : (1 <<< reg) % 2 ^ 64 = 2 ^ reg := by
      rw [Nat.one_shiftLeft]; exact Nat.mod_eq_of_lt hlt
    cases t <;> simp only [genSingleTypeRegMask, hreg, h64, hmask, hmod, if_true]
  rw [isValidIntArgReg_tests_low_word t e reg reg callConv full hsingle hfull]
  simp [regMaskTP.contains, h64]

/-- Under its precondition `hasFixedRetBuffReg`, the function `theFixedRetBuffMask`
returns a mask. -/
theorem theFixedRetBuffMask_isSome (t : Target) (e : TargetTables)
    (callConv : CorInfoCallConvExtension) (hb : hasFixedRetBuffReg t e callConv = true) :
    ∃ m, theFixedRetBuffMask t e callConv = some m := by
  unfold theFixedRetBuffMask
  rw [if_pos hb]
  cases t <;> try exact ⟨_, rfl⟩
  cases hs : e.SWIFT_SUPPORT
  · exact ⟨regMaskTP.ofSmall 0, by simp [hs]⟩
  · have hc : callConv = CorInfoCallConvExtension.Swift := by
      simpa [hasFixedRetBuffReg, hs] using hb
    exact ⟨e.RBM_SWIFT_ARG_RET_BUFF, by simp [hs, hc]⟩

/-- The function `fullIntArgRegMask` returns a mask for every calling convention:
its call of `theFixedRetBuffMask` is guarded by `hasFixedRetBuffReg`. -/
theorem fullIntArgRegMask_isSome (t : Target) (e : TargetTables)
    (callConv : CorInfoCallConvExtension) :
    ∃ full, fullIntArgRegMask t e callConv = some full := by
  unfold fullIntArgRegMask
  cases hb : hasFixedRetBuffReg t e callConv
  · simp only [Bool.false_eq_true, if_false, Option.bind_eq_bind, Option.some_bind]
    split_ifs <;> exact ⟨_, rfl⟩
  · obtain ⟨m, hm⟩ := theFixedRetBuffMask_isSome t e callConv hb
    simp only [if_true, hm, Option.map_some', Option.bind_eq_bind, Option.some_bind]
    split_ifs <;> exact ⟨_, rfl⟩

theorem castUnsigned_natCast (n : Nat) (h : n < 2 ^ 32) : castUnsigned (n : Int) = n := by
  unfold castUnsigned
  omega

theorem castUnsigned_neg (x : Int) (h1 : x < 0) (h2 : -2 ^ 31 ≤ x) :
    2 ^ 31 ≤ castUnsigned x := by
  unfold castUnsigned
  omega

theorem orAssign_eq_or (t : Target) (self second : regMaskTP) (h : regMaskTP.WF t self) :
    regMaskTP.orAssign t self second = regMaskTP.or t self second := by
  obtain ⟨_, hh⟩ := h
  cases ht : HAS_MORE_THAN_64_REGISTERS t
  · rw [ht] at hh
    simp at hh
    simp [regMaskTP.orAssign, regMaskTP.or, regMaskTP.ofSmall, regMaskTP.getLow, ht, hh]
  · simp [regMaskTP.orAssign, regMaskTP.or, regMaskTP.mk2, regMaskTP.getLow, regMaskTP.getHigh, ht]

theorem WF_or (t : Target) (a b : regMaskTP) (ha : regMaskTP.WF t a) (hb : regMaskTP.WF t b) :
    regMaskTP.WF t (regMaskTP.or t a b) := by
  obtain ⟨hal, hah⟩ := ha
  obtain ⟨hbl, hbh⟩ := hb
  cases ht : HAS_MORE_THAN_64_REGISTERS t
  · simp [regMaskTP.WF, regMaskTP.or, regMaskTP.ofSmall, regMaskTP.getLow, ht, RBM_NONE]
    exact Nat.or_lt_two_pow hal hbl
  · rw [ht] at hah hbh
    simp at hah hbh
    simp [regMaskTP.WF, regMaskTP.or, regMaskTP.mk2, regMaskTP.getLow, regMaskTP.getHigh, ht]
    exact ⟨Nat.or_lt_two_pow hal hbl, Nat.or_lt_two_pow hah hbh⟩

theorem contains_or (t : Target) (a b : regMaskTP) (r : Nat)
    (ha : regMaskTP.WF t a) (hb : regMaskTP.WF t b) :
    (regMaskTP.or t a b).contains r = (a.contains r || b.contains r) := by
  obtain ⟨_, hah⟩ := ha
  obtain ⟨_, hbh⟩ := hb
  cases ht : HAS_MORE_THAN_64_REGISTERS t
  · rw [ht] at hah hbh
    simp at hah hbh
    by_cases hr : r < 64 <;>
      simp [regMaskTP.contains, regMaskTP.or, regMaskTP.ofSmall, regMaskTP.getLow, ht, hr, hah,
        hbh, RBM_NONE]
  · by_cases hr : r < 64 <;>
      simp [regMaskTP.contains, regMaskTP.or, regMaskTP.mk2, regMaskTP.getLow,
        regMaskTP.getHigh, ht, hr]

theorem WF_ofSmall_zero (t : Target) : regMaskTP.WF t (regMaskTP.ofSmall 0) := by
  cases t <;> decide

theorem theFixedRetBuffMask_WF (t : Target) (e : TargetTables)
    (callConv : CorInfoCallConvExtension) (m : regMaskTP) (hwf : TargetTables.WF t e)
    (hm : theFixedRetBuffMask t e callConv = some m) : regMaskTP.WF t m := by
  obtain ⟨_, h2, h3, _, _⟩ := hwf
  have h0 := WF_ofSmall_zero t
  unfold theFixedRetBuffMask at hm
  split at hm
  · split at hm
    · cases hm; exact h2
    · split at hm
      · split at hm
        · cases hm; exact h3
        · cases hm
      · cases hm; exact h0
    · cases hm; exact h0
  · cases hm

theorem fullIntArgRegMask_eq_spec (t : Target) (e : TargetTables)
    (callConv : CorInfoCallConvExtension) (hwf : TargetTables.WF t e) :
    fullIntArgRegMask t e callConv = some (fullIntArgRegMask_spec t e callConv) := by
  have hwf2 := hwf
  obtain ⟨hA, _, _, hS, hE⟩ := hwf2
  unfold fullIntArgRegMask fullIntArgRegMask_spec
  cases hb : hasFixedRetBuffReg t e callConv
  · simp only [Bool.false_eq_true, if_false, Option.bind_eq_bind, Option.some_bind]
    cases hs : e.SWIFT_SUPPORT
    · simp
    · by_cases hc : callConv = CorInfoCallConvExtension.Swift
      · simp only [if_true, hc, and_self]
        rw [orAssign_eq_or t _ _ hA, orAssign_eq_or t _ _ (WF_or t _ _ hA hS)]
      · simp [hc]
  · obtain ⟨m, hm⟩ := theFixedRetBuffMask_isSome t e callConv hb
    have hM := theFixedRetBuffMask_WF t e callConv m hwf hm
    simp only [if_true, hm, Option.map_some', Option.bind_eq_bind, Option.some_bind,
      Option.getD_some]
    rw [orAssign_eq_or t _ _ hA]
    have hAM := WF_or t _ _ hA hM
    cases hs : e.SWIFT_SUPPORT
    · simp
    · by_cases hc : callConv = CorInfoCallConvExtension.Swift
      · simp only [if_true, hc, and_self]
        rw [orAssign_eq_or t _ _ hAM, orAssign_eq_or t _ _ (WF_or t _ _ hAM hS)]
      · simp [hc]

theorem fullIntArgRegMask_spec_contains (t : Target) (e : TargetTables)
    (callConv : CorInfoCallConvExtension) (r : Nat) (hwf : TargetTables.WF t e) :
    (fullIntArgRegMask_spec t e callConv).contains r =
      (e.RBM_ARG_REGS.contains r ||
        (hasFixedRetBuffReg t e callConv &&
          ((theFixedRetBuffMask t e callConv).getD (regMaskTP.ofSmall RBM_NONE)).contains r) ||
        (e.SWIFT_SUPPORT && decide (callConv = CorInfoCallConvExtension.Swift) &&
          (e.RBM_SWIFT_SELF.contains r || e.RBM_SWIFT_ERROR.contains r))) := by
  have hwf2 := hwf
  obtain ⟨hA, _, _, hS, hE⟩ := hwf2
  have hM : regMaskTP.WF t
      ((theFixedRetBuffMask t e callConv).getD (regMaskTP.ofSmall RBM_NONE)) := by
    cases hm : theFixedRetBuffMask t e callConv with
    | none => exact WF_ofSmall_zero t
    | some m => exact theFixedRetBuffMask_WF t e callConv m hwf hm
  unfold fullIntArgRegMask_spec
  generalize (theFixedRetBuffMask t e callConv).getD (regMaskTP.ofSmall RBM_NONE) = M at hM ⊢
  have hAM := WF_or t _ _ hA hM
  cases hb : hasFixedRetBuffReg t e callConv <;> cases hs : e.SWIFT_SUPPORT <;>
    by_cases hc : callConv = CorInfoCallConvExtension.Swift <;>
    simp [hc, contains_or t _ _ r hA hM, contains_or t _ _ r hA hS,
      contains_or t _ _ r (WF_or t _ _ hA hS) hE, contains_or t _ _ r hAM hS,
      contains_or t _ _ r (WF_or t _ _ hAM hS) hE, Bool.or_assoc]

theorem nat_beq_eq_decide (a b : Nat) : (a == b) = decide (a = b) := by
  by_cases h : a = b <;> simp [h]

theorem subUnsigned_of_le (a b : Nat) (ha : a < 2 ^ 32) (hb : b ≤ a) :
    subUnsigned a b = a - b := by
  unfold subUnsigned
  omega

theorem genIsValidFloatReg_iff (c : RegConsts) (reg : Nat) :
    genIsValidFloatReg c reg = true ↔ c.REG_FP_FIRST ≤ reg ∧ reg ≤ c.REG_FP_LAST := by
  simp [genIsValidFloatReg]

theorem genIsValidDoubleReg_eq (c : RegConsts) (reg : Nat) (hreg : reg < 2 ^ 32)
    (hvalid : genIsValidFloatReg c reg = true) :
    genIsValidDoubleReg c reg = decide ((reg - c.REG_FP_FIRST) % 2 = 0) := by
  have h := (genIsValidFloatReg_iff c reg).1 hvalid
  simp [genIsValidDoubleReg, hvalid, subUnsigned_of_le reg c.REG_FP_FIRST hreg h.1,
    Nat.and_one_is_mod, nat_beq_eq_decide]

theorem regMaskSmall.and_not (t : Target) (x : Nat) : x &&& regMaskSmall.not t x = 0 := by
  unfold regMaskSmall.not
  have hy : x % 2 ^ REGMASK_BITS t < 2 ^ REGMASK_BITS t := Nat.mod_lt _ (by positivity)
  have e : 2 ^ REGMASK_BITS t - 1 - x % 2 ^ REGMASK_BITS t =
      2 ^ REGMASK_BITS t - (x % 2 ^ REGMASK_BITS t + 1) := by omega
  rw [e]
  apply Nat.eq_of_testBit_eq
  intro i
  rw [Nat.testBit_and, Nat.testBit_two_pow_sub_succ hy, Nat.testBit_mod_two_pow,
    Nat.zero_testBit]
  by_cases hi : i < REGMASK_BITS t <;> cases hb : x.testBit i <;> simp [hi]

theorem genSingleTypeRegMask_amd64_low (e : TargetTables) (reg : Nat)
    (hreg : reg < REG_COUNT e.regs) (h64 : reg < 64) (hmask : e.regMasks reg = 2 ^ reg) :
    genSingleTypeRegMask Target.AMD64 e reg = some (2 ^ reg) ∧ 2 ^ reg < 2 ^ 64 := by
  have hlt : 2 ^ reg < 2 ^ 64 := Nat.pow_lt_pow_right (by decide) h64
  have hmod : (1 <<< reg) % 2 ^ 64 = 2 ^ reg := by
    rw [Nat.one_shiftLeft]; exact Nat.mod_eq_of_lt hlt
  exact ⟨by simp only [genSingleTypeRegMask, hreg, h64, hmask, hmod, if_true], hlt⟩

theorem BitOperations.PopCount_eq_zero_iff (x : Nat) (hx : x < 2 ^ 64) :
    BitOperations.PopCount x = 0 ↔ x = 0 := by
  unfold BitOperations.PopCount
  rw [List.countP_eq_zero]
  constructor
  · intro h
    apply Nat.zero_of_testBit_eq_false
    intro i
    by_cases hi : i < 64
    · simpa using h i (List.mem_range.2 hi)
    · exact Nat.testBit_lt_two_pow
        (lt_of_lt_of_le hx (Nat.pow_le_pow_right (by decide) (by omega)))
  · rintro rfl i _
    simp

theorem BitOperations.PopCount_le_32 (x : Nat) (hx : x < 2 ^ 32) :
    BitOperations.PopCount x ≤ 32 := by
  unfold BitOperations.PopCount
  have hmono : (List.range 64).countP (fun i => x.testBit i) ≤
      (List.range 64).countP (fun i => decide (i < 32)) := by
    apply List.countP_mono_left
    intro i _ hbit
    by_contra hge
    have hge2 : 32 ≤ i := by simpa using hge
    have : x.testBit i = false :=
      Nat.testBit_lt_two_pow (lt_of_lt_of_le hx (Nat.pow_le_pow_right (by decide) hge2))
    rw [this] at hbit; cases hbit
  have hcount : (List.range 64).countP (fun i => decide (i < 32)) = 32 := by decide
  omega

theorem sub_testBit_of_subset (a : Nat) :
    ∀ b : Nat, (∀ i, b.testBit i = true → a.testBit i = true) →
      b ≤ a ∧ ∀ i, (a - b).testBit i = (a.testBit i && !b.testBit i) := by
  induction a using Nat.strong_induction_on with
  | _ a ih =>
    intro b h
    by_cases ha : a = 0
    · subst ha
      have hb : b = 0 := by
        apply Nat.zero_of_testBit_eq_false
        intro i
        cases hbi : b.testBit i with
        | false => rfl
        | true => have := h i hbi; simp at this
      subst hb
      simp
    · have hlt : a / 2 < a := Nat.div_lt_self (Nat.pos_of_ne_zero ha) (by decide)
      have hhalf : ∀ i, (b / 2).testBit i = true → (a / 2).testBit i = true := by
        intro i hbi
        rw [← Nat.testBit_succ] at hbi ⊢
        exact h (i + 1) hbi
      obtain ⟨hle, hbits⟩ := ih (a / 2) hlt (b / 2) hhalf
      have h0 : b % 2 ≤ a % 2 := by
        have := h 0
        simp only [Nat.testBit_zero, decide_eq_true_eq] at this
        omega
      have hba : b ≤ a := by omega
      refine ⟨hba, fun i => ?_⟩
      cases i with
      | zero =>
        simp only [Nat.testBit_zero]
        have hm : (a - b) % 2 = a % 2 - b % 2 := by omega
        rw [hm]
        rcases Nat.mod_two_eq_zero_or_one a with ha2 | ha2 <;>
          rcases Nat.mod_two_eq_zero_or_one b with hb2 | hb2 <;>
          simp [ha2, hb2]
      | succ i =>
        rw [Nat.testBit_succ, Nat.testBit_succ, Nat.testBit_succ]
        have hd : (a - b) / 2 = a / 2 - b / 2 := by omega
        rw [hd]
        exact hbits i

theorem testBit_not64 (x i : Nat) (hx : x < 2 ^ 64) :
    (2 ^ 64 - 1 - x).testBit i = (decide (i < 64) && !x.testBit i) := by
  have e : 2 ^ 64 - 1 - x = 2 ^ 64 - (x + 1) := by omega
  rw [e, Nat.testBit_two_pow_sub_succ hx]

theorem testBit_of_lt64 (x i : Nat) (hx : x < 2 ^ 64) (hi : 64 ≤ i) : x.testBit i = false :=
  Nat.testBit_lt_two_pow (lt_of_lt_of_le hx (Nat.pow_le_pow_right (by decide) hi))

theorem and_not64_eq_zero_iff (a b : Nat) (ha : a < 2 ^ 64) (hb : b < 2 ^ 64) :
    b &&& (2 ^ 64 - 1 - a) = 0 ↔ ∀ i, b.testBit i = true → a.testBit i = true := by
  constructor
  · intro h i hbi
    have hi : i < 64 := by
      by_contra hge
      rw [testBit_of_lt64 b i hb (by omega)] at hbi; cases hbi
    have := congrArg (fun n => n.testBit i) h
    simp only [Nat.testBit_and, testBit_not64 a i ha, Nat.zero_testBit, hbi, hi, decide_True,
      Bool.true_and, Bool.not_eq_false'] at this
    exact this
  · intro h
    apply Nat.eq_of_testBit_eq
    intro i
    rw [Nat.testBit_and, testBit_not64 a i ha, Nat.zero_testBit]
    cases hbi : b.testBit i with
    | false => simp
    | true => simp [h i hbi]

theorem sub64_eq_and_not_of_subset (a b : Nat) (ha : a < 2 ^ 64) (hb : b < 2 ^ 64)
    (h : ∀ i, b.testBit i = true → a.testBit i = true) :
    (a + 2 ^ 64 - b) % 2 ^ 64 = a &&& (2 ^ 64 - 1 - b) := by
  obtain ⟨hle, hbits⟩ := sub_testBit_of_subset a b h
  have e : (a + 2 ^ 64 - b) % 2 ^ 64 = a - b := by omega
  rw [e]
  apply Nat.eq_of_testBit_eq
  intro i
  rw [hbits i, Nat.testBit_and, testBit_not64 b i hb]
  by_cases hi : i < 64
  · simp [hi]
  · simp [hi, testBit_of_lt64 a i ha (by omega)]

theorem subset_of_sub64_eq_and_not (a b : Nat) (ha : a < 2 ^ 64) (hb : b < 2 ^ 64)
    (h : (a + 2 ^ 64 - b) % 2 ^ 64 = a &&& (2 ^ 64 - 1 - b)) :
    ∀ i, b.testBit i = true → a.testBit i = true := by
  have hc : a &&& b < 2 ^ 64 := lt_of_le_of_lt Nat.and_le_left ha
  have hsub : ∀ i, (a &&& b).testBit i = true → a.testBit i = true := by
    intro i hi
    simp only [Nat.testBit_and, Bool.and_eq_true] at hi
    exact hi.1
  have hB := sub64_eq_and_not_of_subset a (a &&& b) ha hc hsub
  have hle := (sub_testBit_of_subset a (a &&& b) hsub).1
  have hsame : a &&& (2 ^ 64 - 1 - (a &&& b)) = a &&& (2 ^ 64 - 1 - b) := by
    apply Nat.eq_of_testBit_eq
    intro i
    rw [Nat.testBit_and, Nat.testBit_and, testBit_not64 _ i hc, testBit_not64 b i hb,
      Nat.testBit_and]
    cases a.testBit i <;> cases b.testBit i <;> simp
  have hbc : b = a &&& b := by
    rw [← hsame, ← hB] at h
    omega
  intro i hbi
  rw [hbc] at hbi
  exact hsub i hbi

theorem doubleAnchor_facts (c : RegConsts) (reg : Nat) (hreg : reg < 2 ^ 32)
    (hvalid : genIsValidFloatReg c reg = true) :
    getRegForType Target.ARM c reg var_types.TYP_DOUBLE =
        (if (reg - c.REG_FP_FIRST) % 2 = 0 then reg else reg - 1) ∧
      c.REG_FP_FIRST ≤ getRegForType Target.ARM c reg var_types.TYP_DOUBLE ∧
      getRegForType Target.ARM c reg var_types.TYP_DOUBLE ≤ reg ∧
      (getRegForType Target.ARM c reg var_types.TYP_DOUBLE - c.REG_FP_FIRST) % 2 = 0 := by
  have h := (genIsValidFloatReg_iff c reg).1 hvalid
  have hd := genIsValidDoubleReg_eq c reg hreg hvalid
  have hval : getRegForType Target.ARM c reg var_types.TYP_DOUBLE =
      (if (reg - c.REG_FP_FIRST) % 2 = 0 then reg else reg - 1) := by
    by_cases he : (reg - c.REG_FP_FIRST) % 2 = 0
    · simp [getRegForType, hd, he]
    · have h1 : 1 ≤ reg := by omega
      simp [getRegForType, hd, he, REG_PREV, subUnsigned_of_le reg 1 hreg h1]
  refine ⟨hval, ?_, ?_, ?_⟩ <;> rw [hval] <;> split_ifs <;> omega

theorem PopCount_two_pow_pair (a : Nat) (ha : a + 1 < 64) :
    BitOperations.PopCount (2 ^ a ||| 2 ^ (a + 1)) = 2 := by
  have := BitOperations.PopCount_or_add_and (2 ^ a) (2 ^ (a + 1))
  rw [two_pow_and_two_pow (by omega), BitOperations.PopCount_zero,
    BitOperations.PopCount_two_pow a (by omega),
    BitOperations.PopCount_two_pow (a + 1) ha] at this
  omega

theorem regStepOfType_cases (t : Target) (type : var_types) :
    regStepOfType t type = 1 ∨ regStepOfType t type = 2 := by
  unfold regStepOfType; split_ifs <;> simp

theorem regNextOfType_step (t : Target) (c : RegConsts) (k : VarTypeKinds) (regs : List Nat)
    (reg : Nat) (type : var_types) (hreg : reg + 2 < 2 ^ 32)
    (hhold : type = var_types.TYP_DOUBLE → floatRegCanHoldType t c reg type = some true)
    (hkind : k.varTypeUsesIntReg type = true ∨
      (TARGET_XARCH t = true ∧ k.varTypeUsesMaskReg type = true) ∨
      k.varTypeUsesFloatReg type = true) :
    regNextOfType t c k regs reg type =
      some (if reg + regStepOfType t type ≤ lastRegOfType t c k type then
        reg + regStepOfType t type else REG_NA regs) := by
  have hlt1 : reg + 1 < 4294967296 := by omega
  have hlt2 : reg + 2 < 4294967296 := by omega
  have hclamp : ∀ next : Nat,
      (if k.varTypeUsesIntReg type = true then
          some (if next > c.REG_INT_LAST then REG_NA regs else next)
        else if (TARGET_XARCH t && k.varTypeUsesMaskReg type) = true then
          some (if next > c.REG_MASK_LAST then REG_NA regs else next)
        else if k.varTypeUsesFloatReg type = true then
          some (if next > c.REG_FP_LAST then REG_NA regs else next)
        else none) =
      some (if next ≤ lastRegOfType t c k type then next else REG_NA regs) := by
    intro next
    unfold lastRegOfType
    cases hi : k.varTypeUsesIntReg type <;> cases hx : TARGET_XARCH t <;>
      cases hm : k.varTypeUsesMaskReg type <;> cases hf : k.varTypeUsesFloatReg type <;>
      simp_all <;> split_ifs <;> first | rfl | omega
  unfold regNextOfType
  dsimp only
  simp only [hclamp]
  by_cases hty : type = var_types.TYP_DOUBLE
  · have hcan := hhold hty
    cases t <;>
      simp [hty, regStepOfType, REG_NEXT, Nat.mod_eq_of_lt hlt1, Nat.mod_eq_of_lt hlt2]
    rw [hty] at hcan
    rw [if_pos hcan, Option.some_bind]
  · cases t <;> simp [hty, regStepOfType, REG_NEXT, Nat.mod_eq_of_lt hlt1]

theorem enumerateRegs_terminates (t : Target) (c : RegConsts) (k : VarTypeKinds)
    (regs : List Nat) (type : var_types)
    (hkind : k.varTypeUsesIntReg type = true ∨
      (TARGET_XARCH t = true ∧ k.varTypeUsesMaskReg type = true) ∨
      k.varTypeUsesFloatReg type = true)
    (h32 : lastRegOfType t c k type + 2 < 2 ^ 32) :
    ∀ d first fuel : Nat, lastRegOfType t c k type - first = d →
      first ≤ lastRegOfType t c k type → d + 1 ≤ fuel →
      (∀ r, first ≤ r → r ≤ lastRegOfType t c k type →
        (r - first) % regStepOfType t type = 0 → type = var_types.TYP_DOUBLE →
        floatRegCanHoldType t c r type = some true) →
      ∃ l, enumerateRegs t c k regs type fuel first = some l ∧ l.head? = some first ∧
        l.Pairwise (· < ·) ∧ (∀ r, r ∈ l → first ≤ r ∧ r ≤ lastRegOfType t c k type) ∧
        l.length ≤ d + 1 := by
  intro d
  induction d using Nat.strong_induction_on with
  | _ d ih =>
    intro first fuel hd hfirst hfuel hhold
    obtain ⟨fuel, rfl⟩ : ∃ f, fuel = f + 1 := ⟨fuel - 1, by omega⟩
    have hstep := regNextOfType_step t c k regs first type (by omega)
      (hhold first (le_refl _) hfirst (by simp)) hkind
    have hs := regStepOfType_cases t type
    generalize hsdef : regStepOfType t type = s at hstep hs hhold
    by_cases hnext : first + s ≤ lastRegOfType t c k type
    · rw [if_pos hnext] at hstep
      by_cases hna : first + s = REG_NA regs
      · refine ⟨[first], ?_, rfl, by simp, ?_, by simp⟩
        · simp [enumerateRegs, hstep, hna]
        · intro r hr
          simp only [List.mem_singleton] at hr
          subst hr
          exact ⟨le_refl _, hfirst⟩
      · have hhold2 : ∀ r, first + s ≤ r → r ≤ lastRegOfType t c k type →
            (r - (first + s)) % s = 0 → type = var_types.TYP_DOUBLE →
            floatRegCanHoldType t c r type = some true := by
          intro r h1 h2 h3 h4
          apply hhold r (by omega) h2 _ h4
          rcases hs with rfl | rfl <;> omega
        obtain ⟨l, hl, hhead, hpair, hmem, hlen⟩ :=
          ih (lastRegOfType t c k type - (first + s)) (by rcases hs with rfl | rfl <;> omega)
            (first + s) fuel rfl hnext (by rcases hs with rfl | rfl <;> omega)
            (by rw [hsdef]; exact hhold2)
        refine ⟨first :: l, ?_, rfl, ?_, ?_, ?_⟩
        · simp [enumerateRegs, hstep, hna, hl]
        · rw [List.pairwise_cons]
          refine ⟨fun r hr => ?_, hpair⟩
          have := (hmem r hr).1
          rcases hs with rfl | rfl <;> omega
        · intro r hr
          rcases List.mem_cons.1 hr with rfl | hr
          · exact ⟨le_refl _, hfirst⟩
          · have := hmem r hr
            exact ⟨by omega, this.2⟩
        · simp only [List.length_cons]
          rcases hs with rfl | rfl <;> omega
    · rw [if_neg hnext] at hstep
      refine ⟨[first], ?_, rfl, by simp, ?_, by simp⟩
      · simp [enumerateRegs, hstep]
      · intro r hr
        simp only [List.mem_singleton] at hr
        subst hr
        exact ⟨le_refl _, hfirst⟩

/-! ## Claims -/

/-- C1: inclusion-exclusion for the population count. On every target (one
word or two), `PopCount(a | b) + PopCount(a & b) == PopCount(a) + PopCount(b)`
for all masks `a` and `b`. -/
theorem PopCount_inclusion_exclusion (t : Target) (a b : regMaskTP) :
    PopCount t (regMaskTP.or t a b) + PopCount t (regMaskTP.and t a b) =
      PopCount t a + PopCount t b := by
  have hl := BitOperations.PopCount_or_add_and a.low b.low
  have hh := BitOperations.PopCount_or_add_and a.high b.high
  have b1 := BitOperations.PopCount_le (a.low ||| b.low)
  have b2 := BitOperations.PopCount_le (a.low &&& b.low)
  have b3 := BitOperations.PopCount_le (a.high ||| b.high)
  have b4 := BitOperations.PopCount_le (a.high &&& b.high)
  have b5 := BitOperations.PopCount_le a.low
  have b6 := BitOperations.PopCount_le a.high
  have b7 := BitOperations.PopCount_le b.low
  have b8 := BitOperations.PopCount_le b.high
  cases h : HAS_MORE_THAN_64_REGISTERS t
  · simpa [PopCount, regMaskTP.or, regMaskTP.and, regMaskTP.ofSmall, regMaskTP.getLow, h] using hl
  · simp only [PopCount, regMaskTP.or, regMaskTP.and, regMaskTP.mk2, regMaskTP.getLow,
      regMaskTP.getHigh, h, if_true]
    rw [Nat.mod_eq_of_lt (by omega), Nat.mod_eq_of_lt (by omega), Nat.mod_eq_of_lt (by omega),
      Nat.mod_eq_of_lt (by omega)]
    omega

/-- C2: singleton round trip. For every register `r` that has a bit in the mask
of the target (`r < 64` with one 64-bit word, `r < 128` with two words, `r < 32`
on x86 whose word is 32 bits wide), `BitScanForward` of
`CreateFromRegNum(r, 1 << (r mod 64))` returns `r`. -/
theorem BitScanForward_CreateFromRegNum (t : Target) (r : Nat)
    (hr : r < regMaskBitCount t) :
    BitScanForward t (regMaskTP.CreateFromRegNum t r (regBit t r)) = some r := by
  obtain ⟨hbit, hlt, hcase⟩ := regBit_eq t r hr
  have h64 : r % 64 < 64 := Nat.mod_lt _ (by decide)
  have hpos : (2 : Nat) ^ (r % 64) ≠ 0 := by positivity
  rw [hbit]
  cases h : HAS_MORE_THAN_64_REGISTERS t
  · have hr64 : r < 64 := by
      rcases hcase with h1 | ⟨h2, _⟩
      · exact h1
      · rw [h] at h2; cases h2
    simp only [BitScanForward, regMaskTP.CreateFromRegNum, regMaskTP.mk2, regMaskTP.getLow, h,
      Bool.false_eq_true, if_false]
    rw [BitOperations.BitScanForward_two_pow _ h64, Nat.mod_eq_of_lt hr64]
  · by_cases hr64 : r < 64
    · simp only [BitScanForward, regMaskTP.CreateFromRegNum, regMaskTP.mk2, regMaskTP.getLow, h,
        hr64, if_true, RBM_NONE, ne_eq, hpos, not_false_eq_true]
      rw [BitOperations.BitScanForward_two_pow _ h64, Nat.mod_eq_of_lt hr64]
    · have hr128 : r < 128 := by
        rcases hcase with h1 | ⟨_, _, h3⟩
        · exact absurd h1 hr64
        · exact h3
      simp only [BitScanForward, regMaskTP.CreateFromRegNum, regMaskTP.mk2, regMaskTP.getLow,
        regMaskTP.getHigh, h, hr64, if_true, if_false, RBM_NONE, ne_eq, not_true_eq_false]
      rw [BitOperations.BitScanForward_two_pow _ h64]
      simp only [Option.map_some', Option.some.injEq]
      omega

/-- Witness for C2: register 70 on ARM64, a two-word target. -/
theorem BitScanForward_CreateFromRegNum_witness :
    70 < regMaskBitCount Target.ARM64 ∧
      BitScanForward Target.ARM64
        (regMaskTP.CreateFromRegNum Target.ARM64 70 (regBit Target.ARM64 70)) = some 70 :=
  ⟨by decide, BitScanForward_CreateFromRegNum Target.ARM64 70 (by decide)⟩

/-- C3: for every non-empty mask `m` the target can hold, `BitScanForward(m)`
returns a register `r` that is a member of `m` while no register below `r` is;
and with two words, an empty low word and a non-empty high word, the result is
`64 +` the bit-scan-forward of the high word. -/
theorem BitScanForward_lowest_member (t : Target) (m : regMaskTP)
    (hwf : regMaskTP.WF t m) (hne : regMaskTP.IsNonEmpty t m = true) :
    (∃ r, BitScanForward t m = some r ∧ m.contains r = true ∧
        ∀ j, j < r → m.contains j = false) ∧
      (HAS_MORE_THAN_64_REGISTERS t = true → m.low = 0 → m.high ≠ 0 →
        ∃ k, BitOperations.BitScanForward m.high = some k ∧
          BitScanForward t m = some (64 + k)) := by
  obtain ⟨hlow, hhigh⟩ := hwf
  have hlow64 : m.low < 2 ^ 64 := lt_of_lt_of_le hlow (two_pow_REGMASK_BITS_le t)
  have lowCase : m.low ≠ 0 → ∃ r, BitOperations.BitScanForward m.low = some r ∧
      m.contains r = true ∧ ∀ j, j < r → m.contains j = false := by
    intro h0
    obtain ⟨r, hr⟩ := BitOperations.BitScanForward_isSome m.low h0 hlow64
    obtain ⟨hr64, hbit, hmin⟩ := (BitOperations.BitScanForward_eq_some _ _).1 hr
    refine ⟨r, hr, by simp [regMaskTP.contains, hr64, hbit], fun j hj => ?_⟩
    have hj64 : j < 64 := by omega
    simp [regMaskTP.contains, hj64, hmin j hj]
  have highCase : HAS_MORE_THAN_64_REGISTERS t = true → m.low = 0 → m.high ≠ 0 →
      ∃ k, BitOperations.BitScanForward m.high = some k ∧ k < 64 ∧
        m.high.testBit k = true ∧ (∀ j, j < k → m.high.testBit j = false) ∧
        BitScanForward t m = some (64 + k) := by
    intro h hl hh
    rw [h, if_pos rfl] at hhigh
    have hhigh64 : m.high < 2 ^ 64 := lt_of_lt_of_le hhigh (two_pow_REGMASK_BITS_le t)
    obtain ⟨k, hk⟩ := BitOperations.BitScanForward_isSome m.high hh hhigh64
    obtain ⟨hk64, hbit, hmin⟩ := (BitOperations.BitScanForward_eq_some _ _).1 hk
    refine ⟨k, hk, hk64, hbit, hmin, ?_⟩
    simp only [BitScanForward, h, if_true, regMaskTP.getLow, regMaskTP.getHigh, hl, RBM_NONE,
      ne_eq, not_true_eq_false, if_false, hk, Option.map_some', Option.some.injEq]
    omega
  constructor
  · cases h : HAS_MORE_THAN_64_REGISTERS t
    · have h0 : m.low ≠ 0 := by
        simpa [regMaskTP.IsNonEmpty, regMaskTP.IsEmpty, h, RBM_NONE] using hne
      obtain ⟨r, hr, hmem, hmin⟩ := lowCase h0
      exact ⟨r, by simpa [BitScanForward, h, regMaskTP.getLow] using hr, hmem, hmin⟩
    · by_cases h0 : m.low = 0
      · have hh : m.high ≠ 0 := by
          intro hz
          simp [regMaskTP.IsNonEmpty, regMaskTP.IsEmpty, h, RBM_NONE, h0, hz] at hne
        obtain ⟨k, _, hk64, hbit, hmin, hres⟩ := highCase h h0 hh
        refine ⟨64 + k, hres, ?_, fun j hj => ?_⟩
        · simp [regMaskTP.contains, REG_HIGH_BASE, hbit]
        · by_cases hj64 : j < 64
          · simp [regMaskTP.contains, hj64, h0]
          · have : j - 64 < k := by omega
            simp [regMaskTP.contains, hj64, REG_HIGH_BASE, hmin _ this]
      · obtain ⟨r, hr, hmem, hmin⟩ := lowCase h0
        refine ⟨r, ?_, hmem, hmin⟩
        simpa [BitScanForward, h, regMaskTP.getLow, RBM_NONE, h0] using hr
  · intro h hl hh
    obtain ⟨k, hk, _, _, _, hres⟩ := highCase h hl hh
    exact ⟨k, hk, hres⟩

/-- Witness for C3: the ARM64 mask whose only members are registers 70 and 75. -/
theorem BitScanForward_lowest_member_witness :
    regMaskTP.WF Target.ARM64 ⟨0, 2112⟩ ∧ regMaskTP.IsNonEmpty Target.ARM64 ⟨0, 2112⟩ = true ∧
      ((∃ r, BitScanForward Target.ARM64 ⟨0, 2112⟩ = some r ∧
          (regMaskTP.mk 0 2112).contains r = true ∧
          ∀ j, j < r → (regMaskTP.mk 0 2112).contains j = false) ∧
        (HAS_MORE_THAN_64_REGISTERS Target.ARM64 = true → (regMaskTP.mk 0 2112).low = 0 →
          (regMaskTP.mk 0 2112).high ≠ 0 →
          ∃ k, BitOperations.BitScanForward (regMaskTP.mk 0 2112).high = some k ∧
            BitScanForward Target.ARM64 ⟨0, 2112⟩ = some (64 + k))) :=
  ⟨by decide, by decide,
    BitScanForward_lowest_member Target.ARM64 ⟨0, 2112⟩ (by decide) (by decide)⟩

/-- C4: the union of the singleton masks of two distinct registers `r1 ≠ r2`
that have a bit in the mask of the target (also a pair such as 0 and 64) has
population count 2, and its `BitScanForward` is the smaller of the two
registers; registers 0 and 63 give count 2 and first member 0. -/
theorem PopCount_union_of_two_registers (t : Target) (r1 r2 : Nat)
    (h1 : r1 < regMaskBitCount t) (h2 : r2 < regMaskBitCount t) (hne : r1 ≠ r2) :
    PopCount t (regMaskTP.or t (regMaskTP.CreateFromRegNum t r1 (regBit t r1))
        (regMaskTP.CreateFromRegNum t r2 (regBit t r2))) = 2 ∧
      BitScanForward t (regMaskTP.or t (regMaskTP.CreateFromRegNum t r1 (regBit t r1))
        (regMaskTP.CreateFromRegNum t r2 (regBit t r2))) = some (min r1 r2) := by
  obtain ⟨e1, g1⟩ := CreateFromRegNum_regBit t r1 h1
  obtain ⟨e2, g2⟩ := CreateFromRegNum_regBit t r2 h2
  rw [e1, e2]
  have p0 := BitOperations.PopCount_zero
  by_cases c1 : r1 < 64 <;> by_cases c2 : r2 < 64
  · -- both registers in the low word
    have hp : BitOperations.PopCount (2 ^ r1 ||| 2 ^ r2) = 2 := by
      have := BitOperations.PopCount_or_add_and (2 ^ r1) (2 ^ r2)
      rw [two_pow_and_two_pow hne, p0, BitOperations.PopCount_two_pow r1 c1,
        BitOperations.PopCount_two_pow r2 c2] at this
      omega
    have hb := BitOperations.BitScanForward_two_pow_or r1 r2 c1 c2
    have hnz : (2 : Nat) ^ r1 ||| 2 ^ r2 ≠ 0 := by
      intro hz
      have := (lor_eq_zero hz).1
      exact absurd this (by positivity)
    cases h : HAS_MORE_THAN_64_REGISTERS t <;>
      simp [PopCount, BitScanForward, regMaskTP.or, regMaskTP.mk2, regMaskTP.ofSmall,
        regMaskTP.getLow, regMaskTP.getHigh, h, c1, c2, hp, hb, p0, hnz, RBM_NONE]
  · -- r1 in the low word, r2 in the high word
    obtain ⟨h, h128⟩ := g2 (by omega)
    have hp1 := BitOperations.PopCount_two_pow r1 c1
    have hp2 := BitOperations.PopCount_two_pow (r2 - 64) (by omega)
    have hb := BitOperations.BitScanForward_two_pow r1 c1
    have hmin : min r1 r2 = r1 := by omega
    simp [PopCount, BitScanForward, regMaskTP.or, regMaskTP.mk2, regMaskTP.getLow,
      regMaskTP.getHigh, h, c1, c2, hp1, hp2, hb, hmin, RBM_NONE]
  · -- r1 in the high word, r2 in the low word
    obtain ⟨h, h128⟩ := g1 (by omega)
    have hp1 := BitOperations.PopCount_two_pow (r1 - 64) (by omega)
    have hp2 := BitOperations.PopCount_two_pow r2 c2
    have hb := BitOperations.BitScanForward_two_pow r2 c2
    have hmin : min r1 r2 = r2 := by omega
    simp [PopCount, BitScanForward, regMaskTP.or, regMaskTP.mk2, regMaskTP.getLow,
      regMaskTP.getHigh, h, c1, c2, hp1, hp2, hb, hmin, RBM_NONE]
  · -- both registers in the high word
    obtain ⟨h, h128⟩ := g1 (by omega)
    obtain ⟨_, h128b⟩ := g2 (by omega)
    have hne64 : r1 - 64 ≠ r2 - 64 := by omega
    have hp : BitOperations.PopCount (2 ^ (r1 - 64) ||| 2 ^ (r2 - 64)) = 2 := by
      have := BitOperations.PopCount_or_add_and (2 ^ (r1 - 64)) (2 ^ (r2 - 64))
      rw [two_pow_and_two_pow hne64, p0, BitOperations.PopCount_two_pow _ (by omega),
        BitOperations.PopCount_two_pow _ (by omega)] at this
      omega
    have hb := BitOperations.BitScanForward_two_pow_or (r1 - 64) (r2 - 64) (by omega) (by omega)
    have hmin : 64 + min (r1 - 64) (r2 - 64) = min r1 r2 := by omega
    simp [PopCount, BitScanForward, regMaskTP.or, regMaskTP.mk2, regMaskTP.getLow,
      regMaskTP.getHigh, h, c1, c2, hp, hb, p0, RBM_NONE]
    omega

/-- Witness for C4: registers 0 and 63 on ARM, a target with one 64-bit word. -/
theorem PopCount_union_of_two_registers_witness :
    0 < regMaskBitCount Target.ARM ∧ 63 < regMaskBitCount Target.ARM ∧ (0 : Nat) ≠ 63 ∧
      PopCount Target.ARM (regMaskTP.or Target.ARM
          (regMaskTP.CreateFromRegNum Target.ARM 0 (regBit Target.ARM 0))
          (regMaskTP.CreateFromRegNum Target.ARM 63 (regBit Target.ARM 63))) = 2 ∧
      BitScanForward Target.ARM (regMaskTP.or Target.ARM
          (regMaskTP.CreateFromRegNum Target.ARM 0 (regBit Target.ARM 0))
          (regMaskTP.CreateFromRegNum Target.ARM 63 (regBit Target.ARM 63))) = some (min 0 63) :=
  ⟨by decide, by decide, by decide,
    PopCount_union_of_two_registers Target.ARM 0 63 (by decide) (by decide) (by decide)⟩

/-- Counterexample to C5 as stated: on ARM (one 64-bit word) with 48 physical
registers, the union of the empty mask with its complement has bit 48 set, a
position that is not below the register count, so it is not the set of the
valid registers. -/
theorem or_not_ne_validRegSet :
    regMaskTP.or Target.ARM ⟨0, 0⟩ (regMaskTP.not Target.ARM ⟨0, 0⟩) ≠ validRegSet 48 ∧
      (regMaskTP.or Target.ARM ⟨0, 0⟩ (regMaskTP.not Target.ARM ⟨0, 0⟩)).contains 48 = true := by
  decide

/-- C5, amended: for every mask `a` the target can hold, `a | ~a` has every bit
of every word set. It holds each bit position below the capacity of the mask,
hence every valid register and also the positions from the register count up to
the capacity, and it is the valid-register set of a target with `n` registers
only when `n` is the capacity of the mask. -/
theorem or_not_eq_all_bits (t : Target) (a : regMaskTP) (hwf : regMaskTP.WF t a) :
    regMaskTP.or t a (regMaskTP.not t a) =
        regMaskTP.mk2 t (2 ^ REGMASK_BITS t - 1) (2 ^ REGMASK_BITS t - 1) ∧
      (∀ i, i < regMaskBitCount t →
        (regMaskTP.or t a (regMaskTP.not t a)).contains i = true) ∧
      (∀ n, n ≤ regMaskBitCount t →
        (regMaskTP.or t a (regMaskTP.not t a) = validRegSet n ↔ n = regMaskBitCount t)) := by
  obtain ⟨hlow, hhigh⟩ := hwf
  have hl := regMaskSmall.or_not t a.low hlow
  have heq : regMaskTP.or t a (regMaskTP.not t a) =
      regMaskTP.mk2 t (2 ^ REGMASK_BITS t - 1) (2 ^ REGMASK_BITS t - 1) := by
    cases h : HAS_MORE_THAN_64_REGISTERS t
    · simp [regMaskTP.or, regMaskTP.not, regMaskTP.mk2, regMaskTP.ofSmall, regMaskTP.getLow, h, hl]
    · rw [h, if_pos rfl] at hhigh
      have hh := regMaskSmall.or_not t a.high hhigh
      simp [regMaskTP.or, regMaskTP.not, regMaskTP.mk2, regMaskTP.getLow, regMaskTP.getHigh, h,
        hl, hh]
  rw [heq]
  exact ⟨rfl, fun i hi => allBits_contains t i hi, fun n hn => allBits_eq_validRegSet t n hn⟩

/-- Witness for C5, amended: the AMD64 mask with registers 0 and 64. -/
theorem or_not_eq_all_bits_witness :
    regMaskTP.WF Target.AMD64 ⟨1, 1⟩ ∧
      (regMaskTP.or Target.AMD64 ⟨1, 1⟩ (regMaskTP.not Target.AMD64 ⟨1, 1⟩) =
          regMaskTP.mk2 Target.AMD64 (2 ^ REGMASK_BITS Target.AMD64 - 1)
            (2 ^ REGMASK_BITS Target.AMD64 - 1) ∧
        (∀ i, i < regMaskBitCount Target.AMD64 →
          (regMaskTP.or Target.AMD64 ⟨1, 1⟩ (regMaskTP.not Target.AMD64 ⟨1, 1⟩)).contains i =
            true) ∧
        (∀ n, n ≤ regMaskBitCount Target.AMD64 →
          (regMaskTP.or Target.AMD64 ⟨1, 1⟩ (regMaskTP.not Target.AMD64 ⟨1, 1⟩) =
            validRegSet n ↔ n = regMaskBitCount Target.AMD64))) :=
  ⟨by decide, or_not_eq_all_bits Target.AMD64 ⟨1, 1⟩ (by decide)⟩

/-- C6: `BitScanForward` of an empty mask (every word zero) does not return a
value: the call ends in the precondition failure of the word-level
bit-scan-forward, on one-word and on two-word targets alike. -/
theorem BitScanForward_empty_fails (t : Target) (m : regMaskTP)
    (hempty : regMaskTP.IsEmpty t m = true) : BitScanForward t m = none := by
  cases h : HAS_MORE_THAN_64_REGISTERS t
  · have h0 : m.low = 0 := by simpa [regMaskTP.IsEmpty, h, RBM_NONE] using hempty
    simp [BitScanForward, h, regMaskTP.getLow, h0, BitOperations.BitScanForward_zero]
  · have h0 : m.low ||| m.high = 0 := by simpa [regMaskTP.IsEmpty, h, RBM_NONE] using hempty
    obtain ⟨hl, hh⟩ := lor_eq_zero h0
    simp [BitScanForward, h, regMaskTP.getLow, regMaskTP.getHigh, hl, hh, RBM_NONE,
      BitOperations.BitScanForward_zero]

/-- Witness for C6: the empty mask `regMaskTP(RBM_NONE, RBM_NONE)` on AMD64. -/
theorem BitScanForward_empty_fails_witness :
    regMaskTP.IsEmpty Target.AMD64 (regMaskTP.mk2 Target.AMD64 RBM_NONE RBM_NONE) = true ∧
      BitScanForward Target.AMD64 (regMaskTP.mk2 Target.AMD64 RBM_NONE RBM_NONE) = none :=
  ⟨by decide, BitScanForward_empty_fails Target.AMD64 _ (by decide)⟩

/-- C7, the failing input: on the ARM64-shaped tables register 65 is below
`REG_COUNT` and is not a member of `fullIntArgRegMask(Managed)`, whose high word
is empty, yet `isValidIntArgReg(65, Managed)` is true: the single-word mask of
register 65 is bit 1, and it is tested against the low word, where bit 1 is
argument register 1. -/
theorem isValidIntArgReg_high_register :
    65 < REG_COUNT arm64Tables.regs ∧
      genSingleTypeRegMask Target.ARM64 arm64Tables 65 = some 2 ∧
      fullIntArgRegMask Target.ARM64 arm64Tables CorInfoCallConvExtension.Managed =
        some ⟨0x1FF, 0⟩ ∧
      (regMaskTP.mk 0x1FF 0).contains 65 = false ∧
      isValidIntArgReg Target.ARM64 arm64Tables 65 CorInfoCallConvExtension.Managed =
        some true := by
  decide

/-- Counterexample to C8 as stated: with the integer registers at 0..15 and the
float registers at 16..47, `GetIntRegSet` of the mask holding float register 16
has bit 16 set, and `GetFloatRegSet` of the mask holding integer register 0 has
bit 0 set. -/
theorem GetIntRegSet_not_within_int_range :
    bitsWithin (regMaskTP.GetIntRegSet (regMaskTP.ofSmall (2 ^ 16))) 0 15 = false ∧
      (regMaskTP.GetIntRegSet (regMaskTP.ofSmall (2 ^ 16))).testBit 16 = true ∧
      bitsWithin (regMaskTP.GetFloatRegSet (regMaskTP.ofSmall (2 ^ 0))) 16 47 = false ∧
      (regMaskTP.GetFloatRegSet (regMaskTP.ofSmall (2 ^ 0))).testBit 0 = true := by
  decide

/-- C8, amended: `GetIntRegSet(m)` and `GetFloatRegSet(m)` both return the low
word of `m` unchanged, so they are equal, and bit `i` of either is set exactly
when register `i` of the low word is a member of `m`, whatever its kind; the
high word is left out. -/
theorem GetIntRegSet_GetFloatRegSet_low_word (m : regMaskTP) :
    regMaskTP.GetIntRegSet m = m.low ∧ regMaskTP.GetFloatRegSet m = m.low ∧
      (∀ i : Fin 64, (regMaskTP.GetIntRegSet m).testBit i = m.contains i) ∧
      (∀ i : Fin 64, (regMaskTP.GetFloatRegSet m).testBit i = m.contains i) := by
  refine ⟨rfl, rfl, fun i => ?_, fun i => ?_⟩ <;>
    simp [regMaskTP.GetIntRegSet, regMaskTP.GetFloatRegSet, regMaskTP.getLow, regMaskTP.contains,
      i.isLt]

/-- Counterexample to C9 as stated: for the register list `0, 1, 2` whose last
value `REG_STK` is 2, `REG_NA` is 3. -/
theorem REG_NA_ne_REG_STK :
    REG_STK [0, 1, 2] = some 2 ∧ REG_NA [0, 1, 2] = 3 ∧ REG_NA [0, 1, 2] ≠ 2 := by
  decide

/-- C9, amended: for every register list whose last value is `REG_STK`, the
sentinel `REG_NA` is numerically identical to `REG_COUNT`, which is
`REG_STK + 1`; it is never equal to `REG_STK`. -/
theorem REG_NA_eq_REG_STK_succ (regs : List Nat) (stk : Nat) (h : REG_STK regs = some stk) :
    REG_NA regs = REG_COUNT regs ∧ REG_NA regs = stk + 1 ∧ REG_NA regs ≠ stk := by
  unfold REG_STK at h
  simp [REG_NA, REG_COUNT, enumNext, h]

/-- Witness for C9, amended: a list of 48 registers followed by `REG_STK = 48`. -/
theorem REG_NA_eq_REG_STK_succ_witness :
    REG_STK (registerList 48) = some 48 ∧
      (REG_NA (registerList 48) = REG_COUNT (registerList 48) ∧
        REG_NA (registerList 48) = 48 + 1 ∧ REG_NA (registerList 48) ≠ 48) :=
  ⟨by decide, REG_NA_eq_REG_STK_succ (registerList 48) 48 (by decide)⟩

/-- C10: for every register list whose last value is `REG_STK`, `REG_STK` equals
`ACTUAL_REG_COUNT` and `REG_COUNT == ACTUAL_REG_COUNT + 1`; and when the list is
the dense zero-based one of the data model, every register identifier before
`REG_STK` is strictly less than `REG_STK`. -/
theorem REG_STK_eq_ACTUAL_REG_COUNT (regs : List Nat) (stk : Nat)
    (h : REG_STK regs = some stk) :
    stk = ACTUAL_REG_COUNT regs ∧ REG_COUNT regs = ACTUAL_REG_COUNT regs + 1 ∧
      (∀ n, regs = registerList n → ∀ id, id ∈ regs.dropLast → id < stk) := by
  unfold REG_STK at h
  refine ⟨by simp [ACTUAL_REG_COUNT, REG_COUNT, enumNext, h],
    by simp [ACTUAL_REG_COUNT, REG_COUNT, enumNext, h], ?_⟩
  rintro n rfl id hid
  have hstk : stk = n := by
    simpa [registerList, List.range_succ] using h.symm
  subst hstk
  simpa [registerList, List.range_succ] using hid

/-- Witness for C10: a list of 48 registers followed by `REG_STK = 48`. -/
theorem REG_STK_eq_ACTUAL_REG_COUNT_witness :
    REG_STK (registerList 48) = some 48 ∧
      (48 = ACTUAL_REG_COUNT (registerList 48) ∧
        REG_COUNT (registerList 48) = ACTUAL_REG_COUNT (registerList 48) + 1 ∧
        (∀ n, registerList 48 = registerList n →
          ∀ id, id ∈ (registerList 48).dropLast → id < 48)) :=
  ⟨by decide, REG_STK_eq_ACTUAL_REG_COUNT (registerList 48) 48 (by decide)⟩

/-- Counterexample to C11 as stated: with 48 physical registers `REG_STK` is 48,
the physical register count, and `genIsValidReg(REG_STK)` is true. -/
theorem genIsValidReg_REG_STK_true :
    REG_STK (registerList 48) = some 48 ∧ ACTUAL_REG_COUNT (registerList 48) = 48 ∧
      genIsValidReg (registerList 48) 48 = true := by
  decide

/-- C11, amended: `genIsValidReg(id)` is true exactly when `id`, compared as an
unsigned value, is less than `REG_COUNT`, one more than the physical register
count. It is true for the stack sentinel `REG_STK`, false for `REG_NA`, and
false for every negative `id` reinterpreted as unsigned. -/
theorem genIsValidReg_iff_lt_REG_COUNT (regs : List Nat) (stk : Nat) (reg : Int)
    (h : REG_STK regs = some stk) (hfit : stk + 1 < 2 ^ 31) :
    (genIsValidReg regs reg = true ↔ castUnsigned reg < ACTUAL_REG_COUNT regs + 1) ∧
      genIsValidReg regs stk = true ∧
      genIsValidReg regs (REG_NA regs) = false ∧
      (reg < 0 → -2 ^ 31 ≤ reg → genIsValidReg regs reg = false) := by
  unfold REG_STK at h
  have hcount : REG_COUNT regs = stk + 1 := by simp [REG_COUNT, enumNext, h]
  have hactual : ACTUAL_REG_COUNT regs = stk := by simp [ACTUAL_REG_COUNT, hcount]
  have hc : castUnsigned ((stk : Int) + 1) = stk + 1 := by
    have := castUnsigned_natCast (stk + 1) (by omega)
    simpa using this
  have hs : castUnsigned (stk : Int) = stk := castUnsigned_natCast _ (by omega)
  refine ⟨?_, ?_, ?_, ?_⟩
  · simp [genIsValidReg, hcount, hactual, hc]
  · simp [genIsValidReg, hcount, hc, hs]
  · simp [genIsValidReg, REG_NA, hcount, hc]
  · intro h1 h2
    have := castUnsigned_neg reg h1 h2
    have hc2 := castUnsigned_natCast (stk + 1) (by omega)
    simp only [genIsValidReg, hcount, hc, decide_eq_false_iff_not]
    omega

/-- Witness for C11, amended: 48 physical registers and the id `-1`. -/
theorem genIsValidReg_iff_lt_REG_COUNT_witness :
    REG_STK (registerList 48) = some 48 ∧ 48 + 1 < 2 ^ 31 ∧
      ((genIsValidReg (registerList 48) (-1) = true ↔
          castUnsigned (-1) < ACTUAL_REG_COUNT (registerList 48) + 1) ∧
        genIsValidReg (registerList 48) ((48 : Nat) : Int) = true ∧
        genIsValidReg (registerList 48) (REG_NA (registerList 48)) = false ∧
        ((-1 : Int) < 0 → -2 ^ 31 ≤ (-1 : Int) →
          genIsValidReg (registerList 48) (-1) = false)) :=
  ⟨by decide, by decide,
    genIsValidReg_iff_lt_REG_COUNT (registerList 48) 48 (-1) (by decide) (by decide)⟩

/-- C12: on a two-word target the conversion `operator regMaskSmall` fails its
assertion exactly when the high word is non-zero and returns the low word
otherwise; so `(regMaskSmall)regMaskTP(x) == x` for every single-word `x`. -/
theorem toSmall_fails_iff_high_ne_zero (t : Target) (m : regMaskTP) (x : Nat)
    (ht : HAS_MORE_THAN_64_REGISTERS t = true) :
    (regMaskTP.toSmall t m = none ↔ m.high ≠ 0) ∧
      regMaskTP.toSmall t m = (if m.high = 0 then some m.low else none) ∧
      regMaskTP.toSmall t (regMaskTP.ofSmall x) = some x := by
  refine ⟨?_, ?_, ?_⟩
  · by_cases h : m.high = 0 <;> simp [regMaskTP.toSmall, ht, RBM_NONE, h]
  · simp [regMaskTP.toSmall, ht, RBM_NONE]
  · simp [regMaskTP.toSmall, regMaskTP.ofSmall, RBM_NONE]

/-- Witness for C12: the AMD64 mask with low word 5 and high word 1. -/
theorem toSmall_fails_iff_high_ne_zero_witness :
    HAS_MORE_THAN_64_REGISTERS Target.AMD64 = true ∧
      ((regMaskTP.toSmall Target.AMD64 ⟨5, 1⟩ = none ↔ (regMaskTP.mk 5 1).high ≠ 0) ∧
        regMaskTP.toSmall Target.AMD64 ⟨5, 1⟩ =
          (if (regMaskTP.mk 5 1).high = 0 then some (regMaskTP.mk 5 1).low else none) ∧
        regMaskTP.toSmall Target.AMD64 (regMaskTP.ofSmall 5) = some 5) :=
  ⟨by decide, toSmall_fails_iff_high_ne_zero Target.AMD64 ⟨5, 1⟩ 5 (by decide)⟩

/-- C13: for every target and calling convention, each of `theFixedRetBuffReg`,
`theFixedRetBuffMask` and `theFixedRetBuffArgNum` fails exactly when
`hasFixedRetBuffReg` is false; on a target other than ARM64 and AMD64 with
Swift support all three fail for every convention, so the `REG_NA`, `0` and
`BAD_VAR_NUM` returns are never reached. -/
theorem theFixedRetBuff_fails_iff (t : Target) (e : TargetTables) (c : RegConsts)
    (callConv : CorInfoCallConvExtension) :
    (theFixedRetBuffReg t e c callConv = none ↔ hasFixedRetBuffReg t e callConv = false) ∧
      (theFixedRetBuffMask t e callConv = none ↔ hasFixedRetBuffReg t e callConv = false) ∧
      (theFixedRetBuffArgNum t e c callConv = none ↔
        hasFixedRetBuffReg t e callConv = false) ∧
      ((t = Target.ARM64 ∨ (t = Target.AMD64 ∧ e.SWIFT_SUPPORT = true)) ∨
        (theFixedRetBuffReg t e c callConv = none ∧ theFixedRetBuffMask t e callConv = none ∧
          theFixedRetBuffArgNum t e c callConv = none)) := by
  cases hb : hasFixedRetBuffReg t e callConv
  · refine ⟨by simp [theFixedRetBuffReg, hb], by simp [theFixedRetBuffMask, hb],
      by simp [theFixedRetBuffArgNum, hb], ?_⟩
    right
    simp [theFixedRetBuffReg, theFixedRetBuffMask, theFixedRetBuffArgNum, hb]
  · cases t <;> simp [hasFixedRetBuffReg] at hb
    · cases hs : e.SWIFT_SUPPORT
      · simp [hs] at hb
      · have hc : callConv = CorInfoCallConvExtension.Swift := by simpa [hs] using hb
        simp [theFixedRetBuffReg, theFixedRetBuffMask, theFixedRetBuffArgNum,
          hasFixedRetBuffReg, hs, hc]
    · have hb2 : hasFixedRetBuffReg Target.ARM64 e callConv = true := by
        simpa [hasFixedRetBuffReg] using hb
      simp [theFixedRetBuffReg, theFixedRetBuffMask, theFixedRetBuffArgNum, hb2]

/-- C14: when `hasFixedRetBuffReg(conv)` is true, `theFixedRetBuffMask(conv)` is
contained in `fullIntArgRegMask(conv)`. When it is false, `fullIntArgRegMask(conv)`
is `RBM_ARG_REGS` with the Swift registers for the Swift convention and nothing
from the return buffer, so a return-buffer register that is outside
`RBM_ARG_REGS` and the Swift registers is not in it. -/
theorem theFixedRetBuffMask_subset_fullIntArgRegMask (t : Target) (e : TargetTables)
    (callConv : CorInfoCallConvExtension) (hwf : TargetTables.WF t e) :
    (hasFixedRetBuffReg t e callConv = true →
        ∃ m full, theFixedRetBuffMask t e callConv = some m ∧
          fullIntArgRegMask t e callConv = some full ∧
          ∀ r, m.contains r = true → full.contains r = true) ∧
      (hasFixedRetBuffReg t e callConv = false →
        ∃ full, fullIntArgRegMask t e callConv = some full ∧
          ∀ r, full.contains r =
              (e.RBM_ARG_REGS.contains r ||
                (e.SWIFT_SUPPORT && decide (callConv = CorInfoCallConvExtension.Swift) &&
                  (e.RBM_SWIFT_SELF.contains r || e.RBM_SWIFT_ERROR.contains r))) ∧
            (e.RBM_ARG_REGS.contains r = false → e.RBM_SWIFT_SELF.contains r = false →
              e.RBM_SWIFT_ERROR.contains r = false → full.contains r = false)) := by
  have heq := fullIntArgRegMask_eq_spec t e callConv hwf
  have hmem := fun r => fullIntArgRegMask_spec_contains t e callConv r hwf
  constructor
  · intro hb
    obtain ⟨m, hm⟩ := theFixedRetBuffMask_isSome t e callConv hb
    refine ⟨m, _, hm, heq, fun r hr => ?_⟩
    rw [hmem r, hb, hm]
    simp [hr]
  · intro hb
    refine ⟨_, heq, fun r => ?_⟩
    have hr := hmem r
    rw [hb] at hr
    simp only [Bool.false_and, Bool.or_false] at hr
    refine ⟨hr, fun h1 h2 h3 => ?_⟩
    rw [hr, h1, h2, h3]
    simp

/-- Witness for C14: the ARM64-shaped tables on Windows, with the `Managed`
convention (fixed return buffer) and with `Thiscall` (none). -/
theorem theFixedRetBuffMask_subset_fullIntArgRegMask_witness :
    TargetTables.WF Target.ARM64 arm64WindowsTables ∧
      hasFixedRetBuffReg Target.ARM64 arm64WindowsTables CorInfoCallConvExtension.Managed =
        true ∧
      hasFixedRetBuffReg Target.ARM64 arm64WindowsTables CorInfoCallConvExtension.Thiscall =
        false ∧
      (∃ m full,
        theFixedRetBuffMask Target.ARM64 arm64WindowsTables CorInfoCallConvExtension.Managed =
            some m ∧
          fullIntArgRegMask Target.ARM64 arm64WindowsTables CorInfoCallConvExtension.Managed =
            some full ∧
          ∀ r, m.contains r = true → full.contains r = true) ∧
      (∃ full,
        fullIntArgRegMask Target.ARM64 arm64WindowsTables CorInfoCallConvExtension.Thiscall =
            some full ∧
          ∀ r, full.contains r =
              (arm64WindowsTables.RBM_ARG_REGS.contains r ||
                (arm64WindowsTables.SWIFT_SUPPORT &&
                  decide (CorInfoCallConvExtension.Thiscall = CorInfoCallConvExtension.Swift) &&
                  (arm64WindowsTables.RBM_SWIFT_SELF.contains r ||
                    arm64WindowsTables.RBM_SWIFT_ERROR.contains r))) ∧
            (arm64WindowsTables.RBM_ARG_REGS.contains r = false →
              arm64WindowsTables.RBM_SWIFT_SELF.contains r = false →
              arm64WindowsTables.RBM_SWIFT_ERROR.contains r = false →
              full.contains r = false)) :=
  ⟨by decide, by decide, by decide,
    (theFixedRetBuffMask_subset_fullIntArgRegMask Target.ARM64 arm64WindowsTables
      CorInfoCallConvExtension.Managed (by decide)).1 (by decide),
    (theFixedRetBuffMask_subset_fullIntArgRegMask Target.ARM64 arm64WindowsTables
      CorInfoCallConvExtension.Thiscall (by decide)).2 (by decide)⟩

/-- C15: for every calling convention `fullIntArgRegMask(conv)` is exactly
`RBM_ARG_REGS`, united with `theFixedRetBuffMask(conv)` when
`hasFixedRetBuffReg(conv)`, united with `RBM_SWIFT_SELF` and `RBM_SWIFT_ERROR`
under Swift support for the Swift convention: a register is in it exactly when
it is in one of these, so `RBM_ARG_REGS` is a subset and nothing else is added. -/
theorem fullIntArgRegMask_exact (t : Target) (e : TargetTables)
    (callConv : CorInfoCallConvExtension) (hwf : TargetTables.WF t e) :
    fullIntArgRegMask t e callConv = some (fullIntArgRegMask_spec t e callConv) ∧
      ∀ r, (fullIntArgRegMask_spec t e callConv).contains r =
        (e.RBM_ARG_REGS.contains r ||
          (hasFixedRetBuffReg t e callConv &&
            ((theFixedRetBuffMask t e callConv).getD (regMaskTP.ofSmall RBM_NONE)).contains r) ||
          (e.SWIFT_SUPPORT && decide (callConv = CorInfoCallConvExtension.Swift) &&
            (e.RBM_SWIFT_SELF.contains r || e.RBM_SWIFT_ERROR.contains r))) :=
  ⟨fullIntArgRegMask_eq_spec t e callConv hwf,
    fun r => fullIntArgRegMask_spec_contains t e callConv r hwf⟩

/-- Witness for C15: the ARM64-shaped tables and the `Managed` convention. -/
theorem fullIntArgRegMask_exact_witness :
    TargetTables.WF Target.ARM64 arm64Tables ∧
      (fullIntArgRegMask Target.ARM64 arm64Tables CorInfoCallConvExtension.Managed =
          some (fullIntArgRegMask_spec Target.ARM64 arm64Tables
            CorInfoCallConvExtension.Managed) ∧
        ∀ r, (fullIntArgRegMask_spec Target.ARM64 arm64Tables
            CorInfoCallConvExtension.Managed).contains r =
          (arm64Tables.RBM_ARG_REGS.contains r ||
            (hasFixedRetBuffReg Target.ARM64 arm64Tables CorInfoCallConvExtension.Managed &&
              ((theFixedRetBuffMask Target.ARM64 arm64Tables
                CorInfoCallConvExtension.Managed).getD
                  (regMaskTP.ofSmall RBM_NONE)).contains r) ||
            (arm64Tables.SWIFT_SUPPORT &&
              decide (CorInfoCallConvExtension.Managed = CorInfoCallConvExtension.Swift) &&
              (arm64Tables.RBM_SWIFT_SELF.contains r ||
                arm64Tables.RBM_SWIFT_ERROR.contains r)))) :=
  ⟨by decide,
    fullIntArgRegMask_exact Target.ARM64 arm64Tables CorInfoCallConvExtension.Managed
      (by decide)⟩

/-- C16: on ARM, for every valid float register `reg`,
`floatRegCanHoldType(reg, TYP_DOUBLE)` is true exactly when `reg` is at an even
offset from `REG_F0`, and it returns what `genIsValidDoubleReg(reg)` returns;
`REG_FP_FIRST` is `REG_F0`, as on ARM. -/
theorem floatRegCanHoldType_double (c : RegConsts) (reg : Nat) (hreg : reg < 2 ^ 32)
    (hvalid : genIsValidFloatReg c reg = true) (hfirst : c.REG_FP_FIRST = c.REG_F0) :
    (floatRegCanHoldType Target.ARM c reg var_types.TYP_DOUBLE = some true ↔
        (reg - c.REG_F0) % 2 = 0) ∧
      floatRegCanHoldType Target.ARM c reg var_types.TYP_DOUBLE =
        some (genIsValidDoubleReg c reg) := by
  have h := (genIsValidFloatReg_iff c reg).1 hvalid
  have hd := genIsValidDoubleReg_eq c reg hreg hvalid
  have hs : subUnsigned reg c.REG_F0 = reg - c.REG_F0 :=
    subUnsigned_of_le reg c.REG_F0 hreg (by omega)
  rw [hd, hfirst]
  simp [floatRegCanHoldType, hvalid, hs, nat_beq_eq_decide]

/-- Witness for C16: float register 18 with the ARM-shaped constants. -/
theorem floatRegCanHoldType_double_witness :
    18 < 2 ^ 32 ∧ genIsValidFloatReg armConsts 18 = true ∧
      armConsts.REG_FP_FIRST = armConsts.REG_F0 ∧
      ((floatRegCanHoldType Target.ARM armConsts 18 var_types.TYP_DOUBLE = some true ↔
          (18 - armConsts.REG_F0) % 2 = 0) ∧
        floatRegCanHoldType Target.ARM armConsts 18 var_types.TYP_DOUBLE =
          some (genIsValidDoubleReg armConsts 18)) :=
  ⟨by decide, by decide, by decide,
    floatRegCanHoldType_double armConsts 18 (by decide) (by decide) (by decide)⟩

/-- C17: on ARM, for every valid float register `reg`,
`getRegForType(reg, TYP_DOUBLE)` is a valid double register: `reg` itself when
`reg` is at an even offset from `REG_FP_FIRST`, and `reg - 1` otherwise. For
every other type, and on every other target, `getRegForType` returns `reg`. -/
theorem getRegForType_double (t : Target) (c : RegConsts) (reg : Nat) (type : var_types)
    (hreg : reg < 2 ^ 32) (hvalid : genIsValidFloatReg c reg = true) :
    genIsValidDoubleReg c (getRegForType Target.ARM c reg var_types.TYP_DOUBLE) = true ∧
      getRegForType Target.ARM c reg var_types.TYP_DOUBLE =
        (if (reg - c.REG_FP_FIRST) % 2 = 0 then reg else reg - 1) ∧
      ((t = Target.ARM ∧ type = var_types.TYP_DOUBLE) ∨ getRegForType t c reg type = reg) := by
  have h := (genIsValidFloatReg_iff c reg).1 hvalid
  have hd := genIsValidDoubleReg_eq c reg hreg hvalid
  have hval : getRegForType Target.ARM c reg var_types.TYP_DOUBLE =
      (if (reg - c.REG_FP_FIRST) % 2 = 0 then reg else reg - 1) := by
    by_cases he : (reg - c.REG_FP_FIRST) % 2 = 0
    · simp [getRegForType, hd, he]
    · have h1 : 1 ≤ reg := by omega
      simp [getRegForType, hd, he, REG_PREV, subUnsigned_of_le reg 1 hreg h1]
  refine ⟨?_, hval, ?_⟩
  · rw [hval]
    by_cases he : (reg - c.REG_FP_FIRST) % 2 = 0
    · simp only [he, if_true]
      rw [hd]; simp [he]
    · simp only [he, if_false]
      have hv2 : genIsValidFloatReg c (reg - 1) = true := by
        rw [genIsValidFloatReg_iff]; omega
      rw [genIsValidDoubleReg_eq c (reg - 1) (by omega) hv2]
      simp; omega
  · by_cases ht : t = Target.ARM
    · by_cases hty : type = var_types.TYP_DOUBLE
      · exact Or.inl ⟨ht, hty⟩
      · right; subst ht; simp [getRegForType, hty]
    · right; cases t <;> simp_all [getRegForType]

/-- Witness for C17: the misaligned float register 17 with the ARM-shaped
constants. -/
theorem getRegForType_double_witness :
    17 < 2 ^ 32 ∧ genIsValidFloatReg armConsts 17 = true ∧
      (genIsValidDoubleReg armConsts
          (getRegForType Target.ARM armConsts 17 var_types.TYP_DOUBLE) = true ∧
        getRegForType Target.ARM armConsts 17 var_types.TYP_DOUBLE =
          (if (17 - armConsts.REG_FP_FIRST) % 2 = 0 then 17 else 17 - 1) ∧
        ((Target.ARM = Target.ARM ∧ var_types.TYP_FLOAT = var_types.TYP_DOUBLE) ∨
          getRegForType Target.ARM armConsts 17 var_types.TYP_FLOAT = 17)) :=
  ⟨by decide, by decide,
    getRegForType_double Target.ARM armConsts 17 var_types.TYP_FLOAT (by decide) (by decide)⟩

/-- Counterexample to C18 as stated: on ARM register 17 is a float register and
register 19 does not exceed `REG_FP_LAST`, yet `regNextOfType(17, TYP_DOUBLE)`
returns no register; it fails the assertion `floatRegCanHoldType`, register 17
being at an odd offset from `REG_F0`. -/
theorem regNextOfType_misaligned_double_fails :
    genIsValidFloatReg armConsts 17 = true ∧
      sampleKinds.varTypeUsesFloatReg var_types.TYP_DOUBLE = true ∧
      17 + 2 ≤ armConsts.REG_FP_LAST ∧
      regNextOfType Target.ARM armConsts sampleKinds (registerList 48) 17
        var_types.TYP_DOUBLE = none := by
  decide

/-- C18, amended: for a type that uses integer registers, mask registers on
xarch, or float registers, and a register that can hold the type when the type
is `TYP_DOUBLE` (on ARM: a float register at an even offset from `REG_F0`),
`regNextOfType(reg, type)` returns the next register, `reg + 1`, or `reg + 2`
for `TYP_DOUBLE` on ARM, when it does not exceed the last register of the kind,
and `REG_NA` otherwise. -/
theorem regNextOfType_eq (t : Target) (c : RegConsts) (k : VarTypeKinds) (regs : List Nat)
    (reg : Nat) (type : var_types) (hreg : reg + 2 < 2 ^ 32)
    (hhold : type = var_types.TYP_DOUBLE → floatRegCanHoldType t c reg type = some true)
    (hkind : k.varTypeUsesIntReg type = true ∨
      (TARGET_XARCH t = true ∧ k.varTypeUsesMaskReg type = true) ∨
      k.varTypeUsesFloatReg type = true) :
    regNextOfType t c k regs reg type =
      some
        (let next := if t = Target.ARM ∧ type = var_types.TYP_DOUBLE then reg + 2 else reg + 1
         let last :=
           if k.varTypeUsesIntReg type = true then c.REG_INT_LAST
           else if TARGET_XARCH t = true ∧ k.varTypeUsesMaskReg type = true then c.REG_MASK_LAST
           else c.REG_FP_LAST
         if next ≤ last then next else REG_NA regs) := by
  have hlt1 : reg + 1 < 4294967296 := by omega
  have hlt2 : reg + 2 < 4294967296 := by omega
  have hlast : ∀ next : Nat,
      (if k.varTypeUsesIntReg type = true then
          some (if next > c.REG_INT_LAST then REG_NA regs else next)
        else if (TARGET_XARCH t && k.varTypeUsesMaskReg type) = true then
          some (if next > c.REG_MASK_LAST then REG_NA regs else next)
        else if k.varTypeUsesFloatReg type = true then
          some (if next > c.REG_FP_LAST then REG_NA regs else next)
        else none) =
      some (if next ≤ (if k.varTypeUsesIntReg type = true then c.REG_INT_LAST
          else if TARGET_XARCH t = true ∧ k.varTypeUsesMaskReg type = true then c.REG_MASK_LAST
          else c.REG_FP_LAST) then next else REG_NA regs) := by
    intro next
    cases hi : k.varTypeUsesIntReg type
    · cases hx : (TARGET_XARCH t && k.varTypeUsesMaskReg type)
      · have hf : k.varTypeUsesFloatReg type = true := by
          rcases hkind with h | ⟨ha, hb⟩ | h
          · rw [hi] at h; cases h
          · simp [ha, hb] at hx
          · exact h
        have hx2 : ¬ (TARGET_XARCH t = true ∧ k.varTypeUsesMaskReg type = true) := by
          simpa using hx
        simp only [Bool.false_eq_true, if_false, hf, if_true, hx2]
        congr 1
        split_ifs <;> first | rfl | omega
      · have hx2 : TARGET_XARCH t = true ∧ k.varTypeUsesMaskReg type = true := by
          simpa using hx
        simp only [Bool.false_eq_true, if_false, if_true, hx2, and_self]
        congr 1
        split_ifs <;> first | rfl | omega
    · simp only [if_true]
      congr 1
      split_ifs <;> first | rfl | omega
  unfold regNextOfType
  dsimp only
  simp only [hlast]
  by_cases hty : type = var_types.TYP_DOUBLE
  · have hcan := hhold hty
    cases t <;>
      simp [hty, REG_NEXT, Nat.mod_eq_of_lt hlt1, Nat.mod_eq_of_lt hlt2]
    rw [hty] at hcan
    rw [if_pos hcan, Option.some_bind]
  · cases t <;> simp [hty, REG_NEXT, Nat.mod_eq_of_lt hlt1]

/-- Witness for C18, amended: the last double register 46 on ARM, after which
the enumeration returns `REG_NA`. -/
theorem regNextOfType_eq_witness :
    46 + 2 < 2 ^ 32 ∧
      (var_types.TYP_DOUBLE = var_types.TYP_DOUBLE →
        floatRegCanHoldType Target.ARM armConsts 46 var_types.TYP_DOUBLE = some true) ∧
      (sampleKinds.varTypeUsesIntReg var_types.TYP_DOUBLE = true ∨
        (TARGET_XARCH Target.ARM = true ∧
          sampleKinds.varTypeUsesMaskReg var_types.TYP_DOUBLE = true) ∨
        sampleKinds.varTypeUsesFloatReg var_types.TYP_DOUBLE = true) ∧
      regNextOfType Target.ARM armConsts sampleKinds (registerList 48) 46
          var_types.TYP_DOUBLE =
        some
          (let next :=
            if Target.ARM = Target.ARM ∧ var_types.TYP_DOUBLE = var_types.TYP_DOUBLE then 46 + 2
            else 46 + 1
           let last :=
             if sampleKinds.varTypeUsesIntReg var_types.TYP_DOUBLE = true then
               armConsts.REG_INT_LAST
             else if TARGET_XARCH Target.ARM = true ∧
                 sampleKinds.varTypeUsesMaskReg var_types.TYP_DOUBLE = true then
               armConsts.REG_MASK_LAST
             else armConsts.REG_FP_LAST
           if next ≤ last then next else REG_NA (registerList 48)) :=
  ⟨by decide, by decide, by decide,
    regNextOfType_eq Target.ARM armConsts sampleKinds (registerList 48) 46
      var_types.TYP_DOUBLE (by decide) (by decide) (by decide)⟩

/-- C19: `isValidFloatArgReg(reg)` is true exactly when
`FIRST_FP_ARGREG <= reg <= LAST_FP_ARGREG` and `reg != REG_NA`; it is false for
`REG_NA` whatever the two bounds are. -/
theorem isValidFloatArgReg_iff (c : RegConsts) (regs : List Nat) (reg : Nat) :
    (isValidFloatArgReg c regs reg = true ↔
        c.FIRST_FP_ARGREG ≤ reg ∧ reg ≤ c.LAST_FP_ARGREG ∧ reg ≠ REG_NA regs) ∧
      isValidFloatArgReg c regs (REG_NA regs) = false := by
  refine ⟨?_, by simp [isValidFloatArgReg]⟩
  by_cases h : reg = REG_NA regs
  · simp [isValidFloatArgReg, h]
  · simp [isValidFloatArgReg, h]

/-- C20: `operator|` and `operator&` on `regMaskTP` are each commutative and
associative, on one-word and on two-word targets. -/
theorem or_and_comm_assoc (t : Target) (a b c : regMaskTP) :
    regMaskTP.or t a b = regMaskTP.or t b a ∧
      regMaskTP.or t (regMaskTP.or t a b) c = regMaskTP.or t a (regMaskTP.or t b c) ∧
      regMaskTP.and t a b = regMaskTP.and t b a ∧
      regMaskTP.and t (regMaskTP.and t a b) c = regMaskTP.and t a (regMaskTP.and t b c) := by
  cases h : HAS_MORE_THAN_64_REGISTERS t <;>
    simp only [regMaskTP.or, regMaskTP.and, regMaskTP.mk2, regMaskTP.ofSmall, regMaskTP.getLow,
      regMaskTP.getHigh, h, if_true, if_false, Bool.false_eq_true] <;>
    refine ⟨?_, ?_, ?_, ?_⟩ <;> congr 1 <;>
    first
      | exact Nat.lor_comm _ _
      | exact Nat.lor_assoc _ _ _
      | exact Nat.land_comm _ _
      | exact Nat.land_assoc _ _ _

/-- C21: for every mask `a`, `a & ~a` is the empty set, the mask with every word
zero, and `IsEmpty` holds of it. -/
theorem and_not_eq_empty (t : Target) (a : regMaskTP) :
    regMaskTP.and t a (regMaskTP.not t a) = ⟨RBM_NONE, RBM_NONE⟩ ∧
      regMaskTP.IsEmpty t (regMaskTP.and t a (regMaskTP.not t a)) = true := by
  have hl := regMaskSmall.and_not t a.low
  have hh := regMaskSmall.and_not t a.high
  cases h : HAS_MORE_THAN_64_REGISTERS t <;>
    simp [regMaskTP.and, regMaskTP.not, regMaskTP.mk2, regMaskTP.ofSmall, regMaskTP.getLow,
      regMaskTP.getHigh, regMaskTP.IsEmpty, h, hl, hh, RBM_NONE]

/-- C22: `IsEmpty(m)` is true exactly when every word of `m` is zero, the low
word and, where there is one, the high word; `IsNonEmpty(m)` is its negation,
and the explicit `bool` conversion of `m` equals `IsNonEmpty(m)`. -/
theorem IsEmpty_iff_words_zero (t : Target) (m : regMaskTP) :
    (regMaskTP.IsEmpty t m = true ↔
        m.low = 0 ∧ (HAS_MORE_THAN_64_REGISTERS t = true → m.high = 0)) ∧
      regMaskTP.IsNonEmpty t m = !regMaskTP.IsEmpty t m ∧
      regMaskTP.toBool t m = regMaskTP.IsNonEmpty t m := by
  cases h : HAS_MORE_THAN_64_REGISTERS t
  · simp [regMaskTP.IsEmpty, regMaskTP.IsNonEmpty, regMaskTP.toBool, h, RBM_NONE, bne]
  · refine ⟨?_, rfl, ?_⟩
    · simp only [regMaskTP.IsEmpty, h, if_true, RBM_NONE, beq_iff_eq, forall_const]
      constructor
      · exact lor_eq_zero
      · rintro ⟨h1, h2⟩; rw [h1, h2]; rfl
    · simp [regMaskTP.IsEmpty, regMaskTP.IsNonEmpty, regMaskTP.toBool, h, RBM_NONE, bne]

/-- C23: on a two-word target, for a shift amount `0 <= b < 64`, `m >> b` is the
mask with low word `low >> b` and high word zero: the high word of `m` is
dropped, so `m >> 0` is `m` only when `m` has no high-word register. -/
theorem shiftRight_drops_high (t : Target) (m : regMaskTP) (b : Int)
    (ht : HAS_MORE_THAN_64_REGISTERS t = true) (hb0 : 0 ≤ b) (hb : b < 64) :
    regMaskTP.shiftRight t m b = some ⟨m.low >>> b.toNat, 0⟩ ∧
      (regMaskTP.shiftRight t m 0 = some m ↔ m.high = 0) := by
  have hbits : REGMASK_BITS t = 64 := by cases t <;> simp_all [HAS_MORE_THAN_64_REGISTERS, REGMASK_BITS]
  constructor
  · simp [regMaskTP.shiftRight, hbits, hb0, hb, regMaskTP.ofSmall, regMaskTP.getLow, RBM_NONE]
  · cases m with
    | mk lo hi =>
      simp [regMaskTP.shiftRight, hbits, regMaskTP.ofSmall, regMaskTP.getLow, RBM_NONE]
      exact eq_comm

/-- Witness for C23: the AMD64 mask with low word 8 and high word 1, shifted by 3. -/
theorem shiftRight_drops_high_witness :
    HAS_MORE_THAN_64_REGISTERS Target.AMD64 = true ∧ (0 : Int) ≤ 3 ∧ (3 : Int) < 64 ∧
      (regMaskTP.shiftRight Target.AMD64 ⟨8, 1⟩ 3 =
          some ⟨(regMaskTP.mk 8 1).low >>> (3 : Int).toNat, 0⟩ ∧
        (regMaskTP.shiftRight Target.AMD64 ⟨8, 1⟩ 0 = some ⟨8, 1⟩ ↔
          (regMaskTP.mk 8 1).high = 0)) :=
  ⟨by decide, by decide, by decide,
    shiftRight_drops_high Target.AMD64 ⟨8, 1⟩ 3 (by decide) (by decide) (by decide)⟩

/-- C24: on ARM `operator-` is the difference of the low words modulo `2^64`, and
it is the set difference exactly when the second mask is a subset of the first:
`b & ~a` is empty if and only if `a - b == a & ~b`. -/
theorem sub_eq_and_not_iff_subset (a b : regMaskTP) (ha : regMaskTP.WF Target.ARM a)
    (hb : regMaskTP.WF Target.ARM b) :
    regMaskTP.sub a b = regMaskTP.ofSmall ((a.low + 2 ^ 64 - b.low) % 2 ^ 64) ∧
      (regMaskTP.and Target.ARM b (regMaskTP.not Target.ARM a) = ⟨RBM_NONE, RBM_NONE⟩ ↔
        regMaskTP.sub a b = regMaskTP.and Target.ARM a (regMaskTP.not Target.ARM b)) := by
  have hal : a.low < 2 ^ 64 := ha.1
  have hbl : b.low < 2 ^ 64 := hb.1
  have hsubv : regMaskTP.sub a b = regMaskTP.ofSmall ((a.low + 2 ^ 64 - b.low) % 2 ^ 64) := by
    simp only [regMaskTP.sub, regMaskTP.getLow, Nat.mod_eq_of_lt hal, Nat.mod_eq_of_lt hbl]
  have hnota : regMaskSmall.not Target.ARM a.low = 2 ^ 64 - 1 - a.low := by
    simp only [regMaskSmall.not, REGMASK_BITS, Nat.mod_eq_of_lt hal]
  have hnotb : regMaskSmall.not Target.ARM b.low = 2 ^ 64 - 1 - b.low := by
    simp only [regMaskSmall.not, REGMASK_BITS, Nat.mod_eq_of_lt hbl]
  refine ⟨hsubv, ?_⟩
  rw [hsubv]
  simp only [regMaskTP.and, regMaskTP.not, HAS_MORE_THAN_64_REGISTERS, regMaskTP.ofSmall,
    regMaskTP.getLow, Bool.false_eq_true, if_false, hnota, hnotb, regMaskTP.mk.injEq, and_true]
  rw [show RBM_NONE = 0 from rfl, and_not64_eq_zero_iff a.low b.low hal hbl]
  constructor
  · exact sub64_eq_and_not_of_subset a.low b.low hal hbl
  · exact subset_of_sub64_eq_and_not a.low b.low hal hbl

/-- Witness for C24: the ARM masks `{1, 2, 3}` and `{1, 2}`. -/
theorem sub_eq_and_not_iff_subset_witness :
    regMaskTP.WF Target.ARM ⟨14, 0⟩ ∧ regMaskTP.WF Target.ARM ⟨6, 0⟩ ∧
      (regMaskTP.sub ⟨14, 0⟩ ⟨6, 0⟩ =
          regMaskTP.ofSmall (((regMaskTP.mk 14 0).low + 2 ^ 64 - (regMaskTP.mk 6 0).low) %
            2 ^ 64) ∧
        (regMaskTP.and Target.ARM ⟨6, 0⟩ (regMaskTP.not Target.ARM ⟨14, 0⟩) =
            ⟨RBM_NONE, RBM_NONE⟩ ↔
          regMaskTP.sub ⟨14, 0⟩ ⟨6, 0⟩ =
            regMaskTP.and Target.ARM ⟨14, 0⟩ (regMaskTP.not Target.ARM ⟨6, 0⟩))) :=
  ⟨by decide, by decide, sub_eq_and_not_iff_subset ⟨14, 0⟩ ⟨6, 0⟩ (by decide) (by decide)⟩

/-- C25, the failing input: on the AMD64-shaped tables register 64 passes the
asserted precondition `(unsigned)reg < REG_COUNT`, the target has more than 64
registers, and the shift `1ULL << 64` is not in range, so
`genSingleTypeRegMask(64)` has no defined result. -/
theorem genSingleTypeRegMask_shift_out_of_range :
    64 < REG_COUNT amd64Tables.regs ∧ castUnsigned 64 < castUnsigned (REG_COUNT amd64Tables.regs) ∧
      HAS_MORE_THAN_64_REGISTERS Target.AMD64 = true ∧
      ¬ (64 < 64) ∧
      genSingleTypeRegMask Target.AMD64 amd64Tables 64 = none := by
  decide

/-- C26: on AMD64 with Swift support, once `hasFixedRetBuffReg(callConv)` has
passed, the convention is `Swift`, so the second assertion of
`theFixedRetBuffReg`, `theFixedRetBuffMask` and `theFixedRetBuffArgNum` holds
and each of them returns its Swift constant. -/
theorem swift_assert_implied (e : TargetTables) (c : RegConsts)
    (callConv : CorInfoCallConvExtension) (hs : e.SWIFT_SUPPORT = true)
    (hb : hasFixedRetBuffReg Target.AMD64 e callConv = true) :
    callConv = CorInfoCallConvExtension.Swift ∧
      theFixedRetBuffReg Target.AMD64 e c callConv = some c.REG_SWIFT_ARG_RET_BUFF ∧
      theFixedRetBuffMask Target.AMD64 e callConv = some e.RBM_SWIFT_ARG_RET_BUFF ∧
      theFixedRetBuffArgNum Target.AMD64 e c callConv = some c.SWIFT_RET_BUFF_ARGNUM := by
  have hc : callConv = CorInfoCallConvExtension.Swift := by
    simpa [hasFixedRetBuffReg, hs] using hb
  subst hc
  simp [theFixedRetBuffReg, theFixedRetBuffMask, theFixedRetBuffArgNum, hasFixedRetBuffReg, hs]

/-- Witness for C26: the AMD64-shaped tables with Swift support and the `Swift`
convention. -/
theorem swift_assert_implied_witness :
    amd64Tables.SWIFT_SUPPORT = true ∧
      hasFixedRetBuffReg Target.AMD64 amd64Tables CorInfoCallConvExtension.Swift = true ∧
      (CorInfoCallConvExtension.Swift = CorInfoCallConvExtension.Swift ∧
        theFixedRetBuffReg Target.AMD64 amd64Tables armConsts CorInfoCallConvExtension.Swift =
          some armConsts.REG_SWIFT_ARG_RET_BUFF ∧
        theFixedRetBuffMask Target.AMD64 amd64Tables CorInfoCallConvExtension.Swift =
          some amd64Tables.RBM_SWIFT_ARG_RET_BUFF ∧
        theFixedRetBuffArgNum Target.AMD64 amd64Tables armConsts
            CorInfoCallConvExtension.Swift =
          some armConsts.SWIFT_RET_BUFF_ARGNUM) :=
  ⟨by decide, by decide,
    swift_assert_implied amd64Tables armConsts CorInfoCallConvExtension.Swift (by decide)
      (by decide)⟩

/-- C27: on ARM, with `regMasks[r] == 1 << r` on the float registers, for every
valid float register `reg` the mask `getSingleTypeRegMask(reg, TYP_DOUBLE)`
equals `genSingleTypeFloatMask(getRegForType(reg, TYP_DOUBLE), TYP_DOUBLE)`; it
has exactly two bits set, the bit of the even anchor register and the bit of the
register after it. The float registers are `REG_F0 .. REG_F31`, an even number
of registers, all below 64 and below `REG_COUNT`. -/
theorem double_mask_agree (e : TargetTables) (c : RegConsts) (REG_F31 reg : Nat)
    (hvalid : genIsValidFloatReg c reg = true)
    (hF0 : c.REG_F0 = c.REG_FP_FIRST) (hF31 : REG_F31 = c.REG_FP_LAST)
    (hpairs : (c.REG_FP_LAST - c.REG_FP_FIRST) % 2 = 1)
    (h64 : c.REG_FP_LAST < 64) (hcount : c.REG_FP_LAST < REG_COUNT e.regs)
    (hmask : ∀ r, c.REG_FP_FIRST ≤ r → r ≤ c.REG_FP_LAST → e.regMasks r = 1 <<< r) :
    getSingleTypeRegMask Target.ARM e c reg var_types.TYP_DOUBLE =
        genSingleTypeFloatMask Target.ARM e c REG_F31
          (getRegForType Target.ARM c reg var_types.TYP_DOUBLE) var_types.TYP_DOUBLE ∧
      getSingleTypeRegMask Target.ARM e c reg var_types.TYP_DOUBLE =
        some (2 ^ getRegForType Target.ARM c reg var_types.TYP_DOUBLE |||
          2 ^ (getRegForType Target.ARM c reg var_types.TYP_DOUBLE + 1)) ∧
      BitOperations.PopCount (2 ^ getRegForType Target.ARM c reg var_types.TYP_DOUBLE |||
          2 ^ (getRegForType Target.ARM c reg var_types.TYP_DOUBLE + 1)) = 2 ∧
      getRegForType Target.ARM c reg var_types.TYP_DOUBLE =
        (if (reg - c.REG_FP_FIRST) % 2 = 0 then reg else reg - 1) := by
  have hr := (genIsValidFloatReg_iff c reg).1 hvalid
  have hreg : reg < 2 ^ 32 := by omega
  obtain ⟨hval, hlo, hle, heven⟩ := doubleAnchor_facts c reg hreg hvalid
  generalize hA : getRegForType Target.ARM c reg var_types.TYP_DOUBLE = anchor
    at hval hlo hle heven ⊢
  have hhi : anchor + 1 ≤ c.REG_FP_LAST := by omega
  have hav : genIsValidFloatReg c anchor = true := by
    rw [genIsValidFloatReg_iff]; omega
  have hdbl : genIsValidDoubleReg c anchor = true := by
    rw [genIsValidDoubleReg_eq c anchor (by omega) hav]; simp [heven]
  have hm0 : e.regMasks anchor = 2 ^ anchor := by
    rw [hmask anchor hlo (by omega), Nat.one_shiftLeft]
  have hm1 : e.regMasks (anchor + 1) = 2 ^ (anchor + 1) := by
    rw [hmask (anchor + 1) (by omega) hhi, Nat.one_shiftLeft]
  have hshift : (2 ^ anchor <<< 1) % 2 ^ 64 = 2 ^ (anchor + 1) := by
    rw [Nat.shiftLeft_eq, ← Nat.pow_succ]
    exact Nat.mod_eq_of_lt (Nat.pow_lt_pow_right (by decide) (by omega))
  have hsingle : genSingleTypeRegMask Target.ARM e anchor = some (2 ^ anchor) := by
    have : anchor < REG_COUNT e.regs := by omega
    simp [genSingleTypeRegMask, this, hm0]
  have hleft : getSingleTypeRegMask Target.ARM e c reg var_types.TYP_DOUBLE =
      some (2 ^ anchor ||| 2 ^ (anchor + 1)) := by
    unfold getSingleTypeRegMask
    simp only [hA, hsingle, Option.some_bind, if_true, hdbl, hshift]
  have hcan : floatRegCanHoldType Target.ARM c anchor var_types.TYP_DOUBLE = some true := by
    have hs : subUnsigned anchor c.REG_F0 = anchor - c.REG_FP_FIRST := by
      rw [hF0]; exact subUnsigned_of_le anchor c.REG_FP_FIRST (by omega) hlo
    simp [floatRegCanHoldType, hav, hs, heven]
  have hright : genSingleTypeFloatMask Target.ARM e c REG_F31 anchor var_types.TYP_DOUBLE =
      some (2 ^ anchor ||| 2 ^ (anchor + 1)) := by
    have hrange : anchor ≥ c.REG_F0 ∧ anchor ≤ REG_F31 := by
      rw [hF0, hF31]; omega
    have hi0 : anchor < REG_COUNT e.regs := by omega
    have hi1 : anchor + 1 < REG_COUNT e.regs := by omega
    have hmod : (anchor + 1) % 2 ^ 32 = anchor + 1 := Nat.mod_eq_of_lt (by omega)
    unfold genSingleTypeFloatMask
    simp only [hcan, if_true, hrange, and_self, regMasksAt, hmod, hi0, hi1, hm0, hm1,
      Option.some_bind, Option.map_some']
  exact ⟨by rw [hleft, hright], hleft, PopCount_two_pow_pair anchor (by omega), hval⟩

/-- Witness for C27: the misaligned float register 17 with the ARM-shaped tables,
whose anchor is register 16. -/
theorem double_mask_agree_witness :
    genIsValidFloatReg armConsts 17 = true ∧ armConsts.REG_F0 = armConsts.REG_FP_FIRST ∧
      (47 : Nat) = armConsts.REG_FP_LAST ∧
      (armConsts.REG_FP_LAST - armConsts.REG_FP_FIRST) % 2 = 1 ∧
      armConsts.REG_FP_LAST < 64 ∧ armConsts.REG_FP_LAST < REG_COUNT armTables.regs ∧
      (∀ r, armConsts.REG_FP_FIRST ≤ r → r ≤ armConsts.REG_FP_LAST →
        armTables.regMasks r = 1 <<< r) ∧
      (getSingleTypeRegMask Target.ARM armTables armConsts 17 var_types.TYP_DOUBLE =
          genSingleTypeFloatMask Target.ARM armTables armConsts 47
            (getRegForType Target.ARM armConsts 17 var_types.TYP_DOUBLE)
            var_types.TYP_DOUBLE ∧
        getSingleTypeRegMask Target.ARM armTables armConsts 17 var_types.TYP_DOUBLE =
          some (2 ^ getRegForType Target.ARM armConsts 17 var_types.TYP_DOUBLE |||
            2 ^ (getRegForType Target.ARM armConsts 17 var_types.TYP_DOUBLE + 1)) ∧
        BitOperations.PopCount
            (2 ^ getRegForType Target.ARM armConsts 17 var_types.TYP_DOUBLE |||
              2 ^ (getRegForType Target.ARM armConsts 17 var_types.TYP_DOUBLE + 1)) = 2 ∧
        getRegForType Target.ARM armConsts 17 var_types.TYP_DOUBLE =
          (if (17 - armConsts.REG_FP_FIRST) % 2 = 0 then 17 else 17 - 1)) :=
  have hmask : ∀ r, armConsts.REG_FP_FIRST ≤ r → r ≤ armConsts.REG_FP_LAST →
      armTables.regMasks r = 1 <<< r := by
    intro r _ h2
    have h48 : r < 48 := Nat.lt_succ_of_le h2
    simp [armTables, h48]
  ⟨by decide, by decide, by decide, by decide, by decide, by decide, hmask,
    double_mask_agree armTables armConsts 47 17 (by decide) (by decide) (by decide)
      (by decide) (by decide) (by decide) hmask⟩

/-- Counterexample to C28 as stated: on ARM register 21 is a float register, yet
`regNextOfType(21, TYP_DOUBLE)` is neither `REG_NA` nor a register; the call
fails the assertion `floatRegCanHoldType`, register 21 being at an odd offset
from `REG_F0`. -/
theorem regNextOfType_neither_REG_NA_nor_register :
    genIsValidFloatReg armConsts 21 = true ∧
      sampleKinds.varTypeUsesFloatReg var_types.TYP_DOUBLE = true ∧
      regNextOfType Target.ARM armConsts sampleKinds (registerList 48) 21
          var_types.TYP_DOUBLE ≠ some (REG_NA (registerList 48)) ∧
      regNextOfType Target.ARM armConsts sampleKinds (registerList 48) 21
          var_types.TYP_DOUBLE = none := by
  decide

/-- C28, amended: for a type that uses integer, float, or on xarch mask
registers, and a register `reg` of the kind that can hold the type when the type
is `TYP_DOUBLE` (on ARM: at an even offset from `REG_F0`), `regNextOfType(reg,
type)` is `REG_NA` or a register strictly greater than `reg` and not beyond the
last register of the kind. Iterating it from a register `first` of the kind such
that the registers at a whole number of steps from `first` can hold the type
visits strictly increasing registers without repeating any, all within the
kind, and reaches `REG_NA` after at most `last + 1 - first` calls. -/
theorem regNextOfType_enumeration (t : Target) (c : RegConsts) (k : VarTypeKinds)
    (regs : List Nat) (type : var_types) (reg first : Nat)
    (hkind : k.varTypeUsesIntReg type = true ∨
      (TARGET_XARCH t = true ∧ k.varTypeUsesMaskReg type = true) ∨
      k.varTypeUsesFloatReg type = true)
    (h32 : lastRegOfType t c k type + 2 < 2 ^ 32)
    (hreg : reg ≤ lastRegOfType t c k type)
    (hholdreg : type = var_types.TYP_DOUBLE → floatRegCanHoldType t c reg type = some true)
    (hfirst : first ≤ lastRegOfType t c k type)
    (hhold : ∀ r, first ≤ r → r ≤ lastRegOfType t c k type →
      (r - first) % regStepOfType t type = 0 → type = var_types.TYP_DOUBLE →
      floatRegCanHoldType t c r type = some true) :
    (regNextOfType t c k regs reg type = some (REG_NA regs) ∨
        ∃ next, regNextOfType t c k regs reg type = some next ∧ reg < next ∧
          next ≤ lastRegOfType t c k type) ∧
      ∃ l, enumerateRegs t c k regs type (lastRegOfType t c k type + 1 - first) first =
          some l ∧
        l.head? = some first ∧ l.Pairwise (· < ·) ∧ l.Nodup ∧
        (∀ r, r ∈ l → first ≤ r ∧ r ≤ lastRegOfType t c k type) ∧
        l.length ≤ lastRegOfType t c k type + 1 - first := by
  constructor
  · have hstep := regNextOfType_step t c k regs reg type (by omega) hholdreg hkind
    have hs := regStepOfType_cases t type
    by_cases hnext : reg + regStepOfType t type ≤ lastRegOfType t c k type
    · right
      rw [if_pos hnext] at hstep
      exact ⟨_, hstep, by rcases hs with h | h <;> omega, hnext⟩
    · left
      rw [if_neg hnext] at hstep
      exact hstep
  · obtain ⟨l, hl, hhead, hpair, hmem, hlen⟩ :=
      enumerateRegs_terminates t c k regs type hkind h32 (lastRegOfType t c k type - first)
        first (lastRegOfType t c k type + 1 - first) rfl hfirst (by omega) hhold
    refine ⟨l, hl, hhead, hpair, ?_, hmem, by omega⟩
    exact hpair.imp (fun h => Nat.ne_of_lt h)

/-- Witness for C28, amended: `TYP_DOUBLE` on ARM, the step from register 44 and
the enumeration from the first float register 16. -/
theorem regNextOfType_enumeration_witness :
    (sampleKinds.varTypeUsesIntReg var_types.TYP_DOUBLE = true ∨
        (TARGET_XARCH Target.ARM = true ∧
          sampleKinds.varTypeUsesMaskReg var_types.TYP_DOUBLE = true) ∨
        sampleKinds.varTypeUsesFloatReg var_types.TYP_DOUBLE = true) ∧
      lastRegOfType Target.ARM armConsts sampleKinds var_types.TYP_DOUBLE + 2 < 2 ^ 32 ∧
      44 ≤ lastRegOfType Target.ARM armConsts sampleKinds var_types.TYP_DOUBLE ∧
      (var_types.TYP_DOUBLE = var_types.TYP_DOUBLE →
        floatRegCanHoldType Target.ARM armConsts 44 var_types.TYP_DOUBLE = some true) ∧
      16 ≤ lastRegOfType Target.ARM armConsts sampleKinds var_types.TYP_DOUBLE ∧
      (∀ r, 16 ≤ r → r ≤ lastRegOfType Target.ARM armConsts sampleKinds var_types.TYP_DOUBLE →
        (r - 16) % regStepOfType Target.ARM var_types.TYP_DOUBLE = 0 →
        var_types.TYP_DOUBLE = var_types.TYP_DOUBLE →
        floatRegCanHoldType Target.ARM armConsts r var_types.TYP_DOUBLE = some true) ∧
      ((regNextOfType Target.ARM armConsts sampleKinds (registerList 48) 44
            var_types.TYP_DOUBLE = some (REG_NA (registerList 48)) ∨
          ∃ next, regNextOfType Target.ARM armConsts sampleKinds (registerList 48) 44
              var_types.TYP_DOUBLE = some next ∧ 44 < next ∧
            next ≤ lastRegOfType Target.ARM armConsts sampleKinds var_types.TYP_DOUBLE) ∧
        ∃ l, enumerateRegs Target.ARM armConsts sampleKinds (registerList 48)
              var_types.TYP_DOUBLE
              (lastRegOfType Target.ARM armConsts sampleKinds var_types.TYP_DOUBLE + 1 - 16)
              16 = some l ∧
          l.head? = some 16 ∧ l.Pairwise (· < ·) ∧ l.Nodup ∧
          (∀ r, r ∈ l → 16 ≤ r ∧
            r ≤ lastRegOfType Target.ARM armConsts sampleKinds var_types.TYP_DOUBLE) ∧
          l.length ≤
            lastRegOfType Target.ARM armConsts sampleKinds var_types.TYP_DOUBLE + 1 - 16) :=
  have hhold : ∀ r, 16 ≤ r →
      r ≤ lastRegOfType Target.ARM armConsts sampleKinds var_types.TYP_DOUBLE →
      (r - 16) % regStepOfType Target.ARM var_types.TYP_DOUBLE = 0 →
      var_types.TYP_DOUBLE = var_types.TYP_DOUBLE →
      floatRegCanHoldType Target.ARM armConsts r var_types.TYP_DOUBLE = some true := by
    intro r h1 h2 h3 _
    have hl : lastRegOfType Target.ARM armConsts sampleKinds var_types.TYP_DOUBLE = 47 := by
      decide
    have hs : regStepOfType Target.ARM var_types.TYP_DOUBLE = 2 := by decide
    rw [hl] at h2
    rw [hs] at h3
    have hv : genIsValidFloatReg armConsts r = true := by
      rw [genIsValidFloatReg_iff]; exact ⟨h1, h2⟩
    have hsub : subUnsigned r armConsts.REG_F0 = r - 16 :=
      subUnsigned_of_le r 16 (by omega) h1
    simp [floatRegCanHoldType, hv, hsub, h3]
  ⟨by decide, by decide, by decide, by decide, by decide, hhold,
    regNextOfType_enumeration Target.ARM armConsts sampleKinds (registerList 48)
      var_types.TYP_DOUBLE 44 16 (by decide) (by decide) (by decide) (by decide) (by decide)
      hhold⟩

/-- C29: for every mask `m` the target can hold, `PopCount(m) == 0` exactly when
`m.IsEmpty()`, and `PopCount(m)` does not exceed the number of mask bits, the
word width times the number of words. -/
theorem PopCount_zero_iff_IsEmpty (t : Target) (m : regMaskTP) (hwf : regMaskTP.WF t m) :
    (PopCount t m = 0 ↔ regMaskTP.IsEmpty t m = true) ∧ PopCount t m ≤ regMaskBitCount t := by
  obtain ⟨hlow, hhigh⟩ := hwf
  have hlow64 : m.low < 2 ^ 64 := lt_of_lt_of_le hlow (two_pow_REGMASK_BITS_le t)
  have zl := BitOperations.PopCount_eq_zero_iff m.low hlow64
  have bl := BitOperations.PopCount_le m.low
  have bh := BitOperations.PopCount_le m.high
  cases h : HAS_MORE_THAN_64_REGISTERS t
  · constructor
    · simp [PopCount, regMaskTP.IsEmpty, regMaskTP.getLow, h, RBM_NONE, zl]
    · cases t <;> simp [HAS_MORE_THAN_64_REGISTERS] at h <;>
        simp only [PopCount, regMaskBitCount, HAS_MORE_THAN_64_REGISTERS, REGMASK_BITS,
          regMaskTP.getLow, Bool.false_eq_true, if_false]
      · exact BitOperations.PopCount_le_32 m.low (by simpa [REGMASK_BITS] using hlow)
      all_goals exact bl
  · rw [h, if_pos rfl] at hhigh
    have hhigh64 : m.high < 2 ^ 64 := lt_of_lt_of_le hhigh (two_pow_REGMASK_BITS_le t)
    have zh := BitOperations.PopCount_eq_zero_iff m.high hhigh64
    have hbits : REGMASK_BITS t = 64 := by
      cases t <;> simp_all [HAS_MORE_THAN_64_REGISTERS, REGMASK_BITS]
    have hmod : (BitOperations.PopCount m.low + BitOperations.PopCount m.high) % 2 ^ 32 =
        BitOperations.PopCount m.low + BitOperations.PopCount m.high :=
      Nat.mod_eq_of_lt (by omega)
    constructor
    · simp only [PopCount, regMaskTP.IsEmpty, regMaskTP.getLow, regMaskTP.getHigh, h, if_true,
        RBM_NONE, beq_iff_eq, hmod]
      constructor
      · intro hz
        have h1 : m.low = 0 := zl.1 (by omega)
        have h2 : m.high = 0 := zh.1 (by omega)
        rw [h1, h2]; rfl
      · intro hz
        obtain ⟨h1, h2⟩ := lor_eq_zero hz
        rw [zl.2 h1, zh.2 h2]
    · simp only [PopCount, regMaskBitCount, regMaskTP.getLow, regMaskTP.getHigh, h, if_true,
        hmod, hbits]
      omega

/-- Witness for C29: the ARM64 mask with registers 0, 1 and 64. -/
theorem PopCount_zero_iff_IsEmpty_witness :
    regMaskTP.WF Target.ARM64 ⟨3, 1⟩ ∧
      ((PopCount Target.ARM64 ⟨3, 1⟩ = 0 ↔ regMaskTP.IsEmpty Target.ARM64 ⟨3, 1⟩ = true) ∧
        PopCount Target.ARM64 ⟨3, 1⟩ ≤ regMaskBitCount Target.ARM64) :=
  ⟨by decide, PopCount_zero_iff_IsEmpty Target.ARM64 ⟨3, 1⟩ (by decide)⟩

end Target_h
